import Mathlib

/-!
Verification of the ILI (in-line inspection) pipeline anomaly-detection engine.

The definitions below are a shallow embedding, translated from the
TypeScript source of the repository:

* `src/ili-pipeline-app/src/lib/parsing/normalizer.ts`   (normalizer)
* `src/unnamed/part_002`                                 (data cleaner, seven passes)
* `src/ili-pipeline-app/src/lib/alignment/distanceCorrection.ts`
* `src/ili-pipeline-app/src/lib/matching/similarity.ts`
* `src/ili-pipeline-app/src/lib/matching/hungarian.ts`
* `src/unnamed/part_005`                                 (matcher / chainer)
* `src/ili-pipeline-app/src/lib/analysis/growthRate.ts`
* `src/unnamed/part_003`                                 (priority classifier)
* `src/ili-pipeline-app/src/lib/pipeline.ts`             (orchestrator fragment)

Modelling conventions:
* JS numbers are modelled as exact rationals `ℚ`, except where the source
  applies `Math.exp` / `Math.sqrt` (similarity scoring), which are modelled
  over `ℝ` with `Real.exp` / `Real.sqrt`.
* JS `%` is the remainder with the sign of the dividend (`jsRem` below),
  not the mathematical modulus.
* `Array.prototype.sort` with the comparator `(a, b) => key a - key b` is a
  stable ascending sort, modelled by the structural insertion sort
  `sortByKey`.  No property proved below depends on the order of elements
  with equal keys.
* Audit-only outputs (the `CleaningReport` / `PassReport` records, chain id
  strings, repair-deadline and citation strings, GPS latitude/longitude)
  are omitted: no verified property reads them.  Cleaning flags, which the
  source stores as strings (some with interpolated numbers), are modelled
  by the inductive `CleaningFlag` carrying the interpolated number.
* JS object identity inside the matcher (`Array.prototype.indexOf` on an
  element of a `filter` result recovers the element's position in the
  original array) is modelled by carrying each element's original position
  through the filter (`nonRefEnum`).
-/

namespace ILI

/-! ## Generic helpers -/

/-- Stable insertion of `x` into a list ascending by `key`. -/
def insertByKey {α : Type} (key : α → ℚ) (x : α) : List α → List α
  | [] => [x]
  | y :: ys => if key x ≤ key y then x :: y :: ys else y :: insertByKey key x ys

/-- Stable ascending sort by a rational key: the model of
`array.sort((a, b) => key(a) - key(b))`. -/
def sortByKey {α : Type} (key : α → ℚ) : List α → List α
  | [] => []
  | x :: xs => insertByKey key x (sortByKey key xs)

theorem insertByKey_perm {α : Type} (key : α → ℚ) (x : α) (l : List α) :
    (insertByKey key x l).Perm (x :: l) := by
  induction l with
  | nil => simp [insertByKey]
  | cons y ys ih =>
      by_cases h : key x ≤ key y
      · simp [insertByKey, h]
      · simp only [insertByKey, if_neg h]
        exact ((ih.cons y).trans (List.Perm.swap x y ys))

theorem sortByKey_perm {α : Type} (key : α → ℚ) (l : List α) :
    (sortByKey key l).Perm l := by
  induction l with
  | nil => simp [sortByKey]
  | cons x xs ih =>
      exact (insertByKey_perm key x (sortByKey key xs)).trans (ih.cons x)

theorem insertByKey_sorted {α : Type} (key : α → ℚ) (x : α) (l : List α)
    (hl : l.Pairwise (fun a b => key a ≤ key b)) :
    (insertByKey key x l).Pairwise (fun a b => key a ≤ key b) := by
  induction l with
  | nil => simp [insertByKey]
  | cons y ys ih =>
      rcases List.pairwise_cons.mp hl with ⟨hy, hys⟩
      by_cases h : key x ≤ key y
      · rw [insertByKey, if_pos h]
        refine List.pairwise_cons.mpr ⟨?_, hl⟩
        intro b hb
        rcases List.mem_cons.mp hb with rfl | hb2
        · exact h
        · exact h.trans (hy _ hb2)
      · rw [insertByKey, if_neg h]
        refine List.pairwise_cons.mpr ⟨?_, ih hys⟩
        intro b hb
        have hb2 := (insertByKey_perm key x ys).mem_iff.mp hb
        rcases List.mem_cons.mp hb2 with rfl | hb3
        · exact le_of_lt (lt_of_not_le h)
        · exact hy _ hb3

theorem sortByKey_sorted {α : Type} (key : α → ℚ) (l : List α) :
    (sortByKey key l).Pairwise (fun a b => key a ≤ key b) := by
  induction l with
  | nil => simp [sortByKey]
  | cons x xs ih => exact insertByKey_sorted key x _ ih

theorem sortByKey_mem {α : Type} (key : α → ℚ) (l : List α) (a : α) :
    a ∈ sortByKey key l ↔ a ∈ l :=
  (sortByKey_perm key l).mem_iff

/-- Truncation toward zero, the rounding used by JS integer conversion. -/
def ratTrunc (q : ℚ) : ℤ := if 0 ≤ q then ⌊q⌋ else -⌊-q⌋

/-- JS remainder `a % b`: same sign as the dividend `a`. -/
def jsRem (a b : ℚ) : ℚ := a - b * (ratTrunc (a / b) : ℚ)

/-- Model of `Math.max(lo, Math.min(hi, v))`. -/
def clampQ (v lo hi : ℚ) : ℚ := max lo (min hi v)

/-- Maximum of a list, `Math.max(...values)`; only used on nonempty lists. -/
def listMax : List ℚ → ℚ
  | [] => 0
  | x :: xs => xs.foldl max x

/-- Minimum of a list, `Math.min(...values)`; only used on nonempty lists. -/
def listMinQ : List ℚ → ℚ
  | [] => 0
  | x :: xs => xs.foldl min x

/-- Median of a list of rationals, translated from the cleaner's `median`. -/
def medianQ (values : List ℚ) : ℚ :=
  if values.length = 0 then 0
  else
    let sorted := sortByKey id values
    let mid := values.length / 2
    if values.length % 2 ≠ 0 then sorted.getD mid 0
    else (sorted.getD (mid - 1) 0 + sorted.getD mid 0) / 2

/-- Rounding used by `Number.prototype.toFixed(n)` on exact values:
round half away from zero at the n-th decimal (binary floating-point
artifacts of the source are not modelled). -/
def toFixedKey (n : ℕ) (q : ℚ) : ℤ :=
  if 0 ≤ q then ⌊q * 10 ^ n + 1 / 2⌋ else -⌊-q * 10 ^ n + 1 / 2⌋

/-! ## Data model (`src/ili-pipeline-app/src/types/index.ts`) -/

/-- Canonical feature types. -/
inductive FeatureType
  | external_metal_loss
  | internal_metal_loss
  | metal_loss
  | dent
  | crack
  | gouge
  | lamination
  | manufacturing_defect
  | girth_weld
  | seam_weld
  | valve
  | fitting
  | casing
  | unknown
deriving DecidableEq, Repr, Inhabited

/-- Cleaning-pass audit flags.  The source stores these as strings, some
with an interpolated number (`toFixed` of a rational); the inductive
carries that number exactly. -/
inductive CleaningFlag
  | distance_converted_m_to_ft
  | dimensions_converted_mm_to_in
  | wt_converted_mm_to_in
  | depth_clamped_low
  | depth_clamped_high
  | wt_clamped_low
  | wt_clamped_high
  | length_clamped
  | width_clamped
  | distance_interpolated
  | odometer_from_distance
  | distance_backward_jump (diff : ℚ)
  | distance_major_backward_jump (diff : ℚ)
  | wt_cross_run_deviation (pct : ℚ)
  | zero_dimensions
deriving DecidableEq, Repr

/-- `NormalizedAnomaly`.  The string-only fields (`id`, `feature_id`,
`clock_display`, raw `feature_type`, `weld_type`) and the optional GPS
fields are omitted: no verified property reads them. -/
structure Anomaly where
  distance : ℚ
  odometer : ℚ
  corrected_distance : ℚ
  joint_number : ℚ
  relative_position : ℚ
  clock_degrees : ℚ
  canonical_type : FeatureType
  depth_percent : ℚ
  length : ℚ
  width : ℚ
  wall_thickness : ℚ
  run_index : ℕ
  is_reference_point : Bool
  has_missing_data : Bool
  cleaning_flags : List CleaningFlag
deriving DecidableEq, Repr, Inhabited

/-- Clock-position input after the string-level dispatch of
`parseClockPosition`: either absent/empty, a matched `"H:MM"` string,
a parsed number, or unparseable text (`parseFloat` gives `NaN`). -/
inductive RawClock
  | missing
  | hm (hours minutes : ℕ)
  | num (x : ℚ)
  | unparseable
deriving DecidableEq, Repr

/-- `RawAnomaly` with canonical column names.  `none` in a numeric field
models `null`/`undefined`/empty (the source also maps unparseable numeric
strings to the same default, a distinction no claim depends on).
`feature_type = none` models an absent or empty type string; `some t`
models a string whose `normalizeFeatureType` image is `t`. -/
structure RawAnomaly where
  distance : Option ℚ
  odometer : Option ℚ
  joint_number : Option ℚ
  relative_position : Option ℚ
  clock_position : RawClock
  feature_type : Option FeatureType
  depth_percent : Option ℚ
  length : Option ℚ
  width : Option ℚ
  wall_thickness : Option ℚ
deriving Repr

/-! ## Normalizer (`src/ili-pipeline-app/src/lib/parsing/normalizer.ts`) -/

/-- `parseClockPosition`: degrees from the parsed clock input, using the
JS remainder (so negative inputs yield negative "degrees"). -/
def parseClockPosition : RawClock → ℚ
  | .missing => 0
  | .hm hours minutes => jsRem ((hours % 12 : ℕ) * 30 + minutes * (1 / 2)) 360
  | .num x => if x ≤ 12 then jsRem (jsRem x 12 * 30) 360 else jsRem x 360
  | .unparseable => 0

/-- Whether a canonical type makes the anomaly a reference point. -/
def isReferenceType (t : FeatureType) : Bool :=
  match t with
  | .girth_weld => true
  | .valve => true
  | .fitting => true
  | _ => false

/-- Normalization of a single raw row (the body of the `map` callback of
`normalizeAnomalies`). -/
def normalizeRow (runIndex : ℕ) (r : RawAnomaly) : Anomaly :=
  let clockDegrees := parseClockPosition r.clock_position
  let normalizedType := r.feature_type.getD FeatureType.unknown
  let isReference := isReferenceType normalizedType
  let dist := r.distance.getD 0
  let odo := r.odometer.getD dist
  let hasMissing :=
    r.distance.isNone || r.depth_percent.isNone ||
      r.feature_type.isNone || (r.clock_position = RawClock.missing)
  { distance := dist
    odometer := odo
    corrected_distance := dist
    joint_number := r.joint_number.getD 0
    relative_position := r.relative_position.getD 0
    clock_degrees := clockDegrees
    canonical_type := normalizedType
    depth_percent := clampQ (r.depth_percent.getD 0) 0 100
    length := |r.length.getD 0|
    width := |r.width.getD 0|
    wall_thickness := r.wall_thickness.getD (3 / 8)
    run_index := runIndex
    is_reference_point := isReference
    has_missing_data := hasMissing
    cleaning_flags := [] }

/-- `normalizeAnomalies`: normalize every row and sort ascending by
distance. -/
def normalizeAnomalies (rawData : List RawAnomaly) (runIndex : ℕ) : List Anomaly :=
  sortByKey (fun a => a.distance) (rawData.map (normalizeRow runIndex))

/-! ## Cleaner (`src/unnamed/part_002`)

Each pass returns the transformed anomaly list; the `CleaningPass` /
`CleaningReport` audit records built alongside are omitted (they contain
only counters and description strings that no claim reads). -/

/-- Composite duplicate key: `(distance.toFixed(2), clock.toFixed(0),
canonical_type, depth.toFixed(1))`. -/
def dedupKey (a : Anomaly) : ℤ × ℤ × FeatureType × ℤ :=
  (toFixedKey 2 a.distance, toFixedKey 0 a.clock_degrees, a.canonical_type,
    toFixedKey 1 a.depth_percent)

/-- Pass 1 loop: keep the first occurrence of each composite key. -/
def removeDuplicatesAux (seen : List (ℤ × ℤ × FeatureType × ℤ)) :
    List Anomaly → List Anomaly
  | [] => []
  | a :: rest =>
      if dedupKey a ∈ seen then removeDuplicatesAux seen rest
      else a :: removeDuplicatesAux (dedupKey a :: seen) rest

/-- Pass 1: duplicate removal. -/
def removeDuplicates (data : List Anomaly) : List Anomaly :=
  removeDuplicatesAux [] data

/-- `METERS_TO_FEET = 3.28084`. -/
def metersToFeet : ℚ := 328084 / 100000

/-- `MM_TO_IN = 0.0393701`. -/
def mmToIn : ℚ := 393701 / 10000000

/-- Distance/odometer/corrected-distance conversion applied by pass 2 when
the run is detected to be in metres. -/
def convertDistanceRow (a : Anomaly) : Anomaly :=
  { a with
    distance := a.distance * metersToFeet
    odometer := a.odometer * metersToFeet
    corrected_distance := a.corrected_distance * metersToFeet
    cleaning_flags := a.cleaning_flags ++ [CleaningFlag.distance_converted_m_to_ft] }

/-- Length/width conversion applied by pass 2 when dimensions are detected
to be in millimetres. -/
def convertDimensionsRow (a : Anomaly) : Anomaly :=
  { a with
    length := a.length * mmToIn
    width := a.width * mmToIn
    cleaning_flags := a.cleaning_flags ++ [CleaningFlag.dimensions_converted_mm_to_in] }

/-- Wall-thickness conversion applied by pass 2. -/
def convertWtRow (a : Anomaly) : Anomaly :=
  { a with
    wall_thickness := a.wall_thickness * mmToIn
    cleaning_flags := a.cleaning_flags ++ [CleaningFlag.wt_converted_mm_to_in] }

/-- Pass 2: unit detection and conversion.  The detection statistics are
computed from the incoming `data`; the conversions are chained on the
running `result`, exactly as in the source. -/
def detectAndConvertUnits (data : List Anomaly) : List Anomaly :=
  let distances := (data.filter (fun a => decide (0 < a.distance))).map (fun a => a.distance)
  let result1 :=
    if distances.length ≠ 0 ∧ listMax distances < 100000 ∧ medianQ distances < 30000 then
      data.map convertDistanceRow
    else data
  let lengths := (data.filter (fun a => decide (0 < a.length))).map (fun a => a.length)
  let result2 :=
    if lengths.length ≠ 0 ∧ 10 < medianQ lengths then result1.map convertDimensionsRow
    else result1
  let wts := (data.filter (fun a => decide (0 < a.wall_thickness))).map (fun a => a.wall_thickness)
  if wts.length ≠ 0 ∧ 3 < medianQ wts then result2.map convertWtRow else result2

/-- Pass 3 body: outlier clamping for one anomaly, with flags appended in
source order.  The source mutates local variables sequentially; the
conditions below read exactly the values the source reads (the depth
high-clamp reads the already low-clamped depth, the wall-thickness
high-clamp reads the already low-clamped value). -/
def clampOutlierRow (a : Anomaly) : Anomaly :=
  let d1 := if a.depth_percent < 0 then 0 else a.depth_percent
  let d2 := if 100 < d1 then 100 else d1
  let w1 := if 0 < a.wall_thickness ∧ a.wall_thickness < 1 / 20 then 188 / 1000
    else a.wall_thickness
  let w2 := if 5 / 2 < w1 then 2 else w1
  let l1 := if 100 < a.length then 100 else a.length
  let wd1 := if 100 < a.width then 100 else a.width
  let flags := a.cleaning_flags
    ++ (if a.depth_percent < 0 then [CleaningFlag.depth_clamped_low] else [])
    ++ (if 100 < d1 then [CleaningFlag.depth_clamped_high] else [])
    ++ (if 0 < a.wall_thickness ∧ a.wall_thickness < 1 / 20 then [CleaningFlag.wt_clamped_low]
        else [])
    ++ (if 5 / 2 < w1 then [CleaningFlag.wt_clamped_high] else [])
    ++ (if 100 < a.length then [CleaningFlag.length_clamped] else [])
    ++ (if 100 < a.width then [CleaningFlag.width_clamped] else [])
  { a with
    depth_percent := d2
    wall_thickness := w2
    length := l1
    width := wd1
    cleaning_flags := flags }

/-- Pass 3: outlier clamping. -/
def clampOutliers (data : List Anomaly) : List Anomaly :=
  data.map clampOutlierRow

/-- Pass 4: missing-value interpolation.  Indexed map so that each element
can read its neighbours' distances. -/
def interpolateMissing (data : List Anomaly) : List Anomaly :=
  (List.range data.length).map (fun idx =>
    let a := data.getD idx default
    let prev := (data.getD (idx - 1) default).distance
    let next := (data.getD (idx + 1) default).distance
    if a.distance = 0 ∧ 0 < idx ∧ idx < data.length - 1 ∧ 0 < prev ∧ 0 < next then
      let interpolated := (prev + next) / 2
      { a with
        distance := interpolated
        corrected_distance := interpolated
        cleaning_flags := a.cleaning_flags ++ [CleaningFlag.distance_interpolated] }
    else if a.odometer = 0 ∧ 0 < a.distance then
      { a with
        odometer := a.distance
        cleaning_flags := a.cleaning_flags ++ [CleaningFlag.odometer_from_distance] }
    else a)

/-- Pass 5: distance monotonicity check (flags only). -/
def enforceMonotonicity (data : List Anomaly) : List Anomaly :=
  (List.range data.length).map (fun idx =>
    let a := data.getD idx default
    if idx = 0 then a
    else
      let prev := data.getD (idx - 1) default
      if a.distance < prev.distance ∧ 0 < a.distance ∧ 0 < prev.distance then
        let diff := prev.distance - a.distance
        if diff < 10 then
          { a with cleaning_flags := a.cleaning_flags ++ [CleaningFlag.distance_backward_jump diff] }
        else
          { a with cleaning_flags := a.cleaning_flags ++ [CleaningFlag.distance_major_backward_jump diff] }
      else a)

/-- Pass 6: cross-run wall-thickness consistency (flags only). -/
def crossRunWallThickness (data : List Anomaly) (otherRuns : List (List Anomaly)) :
    List Anomaly :=
  let otherWts := (otherRuns.flatten.filter (fun a => decide (0 < a.wall_thickness))).map
    (fun a => a.wall_thickness)
  if otherWts.length = 0 then data
  else
    let medianOtherWt := medianQ otherWts
    data.map (fun a =>
      if 0 < a.wall_thickness ∧
          3 / 10 < |a.wall_thickness - medianOtherWt| / medianOtherWt then
        { a with
          cleaning_flags := a.cleaning_flags ++
            [CleaningFlag.wt_cross_run_deviation
              (|a.wall_thickness - medianOtherWt| / medianOtherWt * 100)] }
      else a)

/-- Pass 7: flag anomalies with zero dimensions. -/
def flagZeroDimensions (data : List Anomaly) : List Anomaly :=
  data.map (fun a =>
    if a.is_reference_point then a
    else if a.length = 0 ∧ a.width = 0 ∧ a.depth_percent = 0 then
      { a with
        cleaning_flags := a.cleaning_flags ++ [CleaningFlag.zero_dimensions]
        has_missing_data := true }
    else a)

/-- `cleanData`: the seven cleaning passes in order (pass 6 only when other
runs are provided); the report is omitted. -/
def cleanData (anomalies : List Anomaly) (otherRuns : List (List Anomaly)) :
    List Anomaly :=
  let d1 := removeDuplicates anomalies
  let d2 := detectAndConvertUnits d1
  let d3 := clampOutliers d2
  let d4 := interpolateMissing d3
  let d5 := enforceMonotonicity d4
  let d6 := if otherRuns.length ≠ 0 then crossRunWallThickness d5 otherRuns else d5
  flagZeroDimensions d6

/-! ## Distance correction (`src/ili-pipeline-app/src/lib/alignment/distanceCorrection.ts`) -/

/-- Reference point.  Only the `distance` field is read by the functions
verified here; the identification fields (`id`, `odometer`,
`joint_number`, `feature_type`, `run_index`) are omitted. -/
structure ReferencePoint where
  distance : ℚ
deriving DecidableEq, Repr, Inhabited

/-- A matched pair of reference points.  The derived scalars
`distance_offset` and `odometer_drift` are omitted: the corrector does not
read them. -/
structure MatchedReference where
  run1 : ReferencePoint
  run2 : ReferencePoint
deriving DecidableEq, Repr, Inhabited

structure AlignmentZone where
  start_ref : MatchedReference
  end_ref : MatchedReference
  correction_factor : ℚ
  is_pipe_replacement : Bool
deriving DecidableEq, Repr, Inhabited

/-- `createAlignmentZones`: one zone per consecutive pair of matched
references sorted by the reference-run (`run1`) distance. -/
def createAlignmentZones (matchedRefs : List MatchedReference) : List AlignmentZone :=
  if matchedRefs.length < 2 then []
  else
    let sorted := sortByKey (fun m => m.run1.distance) matchedRefs
    (List.range (sorted.length - 1)).map (fun i =>
      let startRef := sorted.getD i default
      let endRef := sorted.getD (i + 1) default
      let run1Span := endRef.run1.distance - startRef.run1.distance
      let run2Span := endRef.run2.distance - startRef.run2.distance
      let spanRatio := if 0 < run1Span then run2Span / run1Span else 1
      { start_ref := startRef
        end_ref := endRef
        correction_factor := spanRatio
        is_pipe_replacement := decide (1 / 5 < |spanRatio - 1|) })

/-- The in-zone correction of `applyDistanceCorrection`: piecewise-linear
interpolation between the zone's two reference pairs. -/
def zoneCorrected (zone : AlignmentZone) (raw : ℚ) : ℚ :=
  let run2Start := zone.start_ref.run2.distance
  let run2End := zone.end_ref.run2.distance
  let run1Start := zone.start_ref.run1.distance
  let run1End := zone.end_ref.run1.distance
  let run2Span := run2End - run2Start
  if 0 < run2Span then run1Start + (raw - run2Start) / run2Span * (run1End - run1Start)
  else run1Start

/-- `applyDistanceCorrection`: remap every anomaly of the later run into
the reference run's coordinates.  With no zones or fewer than two matched
references the input is returned unchanged. -/
def applyDistanceCorrection (anomalies : List Anomaly) (zones : List AlignmentZone)
    (matchedRefs : List MatchedReference) : List Anomaly :=
  if zones.length = 0 ∨ matchedRefs.length < 2 then anomalies
  else
    let sortedRefs := sortByKey (fun m => m.run2.distance) matchedRefs
    let firstRef := sortedRefs.headD default
    let lastRef := sortedRefs.getLastD default
    anomalies.map (fun a =>
      let raw := a.distance
      let zone? := zones.find? (fun z =>
        decide (z.start_ref.run2.distance ≤ raw) && decide (raw ≤ z.end_ref.run2.distance))
      let corrected :=
        match zone? with
        | some zone => zoneCorrected zone raw
        | none =>
            if raw < firstRef.run2.distance then
              raw + (firstRef.run1.distance - firstRef.run2.distance)
            else if lastRef.run2.distance < raw then
              raw + (lastRef.run1.distance - lastRef.run2.distance)
            else raw
      { a with corrected_distance := corrected })

/-! ## Orchestrator fragment (`src/ili-pipeline-app/src/lib/pipeline.ts`, lines 62-84)

`correctedRuns` starts as `[runs[0]]` (run 0 is the baseline and is never
remapped); each later run `i+1` is corrected with the zones built from the
reference pairs matched between runs `i` and `i+1`.  The reference-pair
computation itself (`matchReferencePoints`) is abstracted as the argument
`matchedFor`: every property proved about this fragment holds for all of
its possible outputs. -/
def pipelineCorrectedRuns (runs : List (List Anomaly))
    (matchedFor : ℕ → List MatchedReference) : List (List Anomaly) :=
  match runs with
  | [] => []
  | run0 :: rest =>
      run0 :: (List.range rest.length).map (fun i =>
        let matched := matchedFor i
        applyDistanceCorrection (rest.getD i []) (createAlignmentZones matched) matched)

/-! ## Similarity scorer (`src/ili-pipeline-app/src/lib/matching/similarity.ts`)

`Math.exp` and `Math.sqrt` are modelled over `ℝ`; the clock and
feature-type components are exact rationals coerced into the breakdown. -/

/-- Exponential-decay distance similarity with 50 ft tolerance. -/
noncomputable def distanceSimilarity (d1 d2 : ℚ) : ℝ :=
  Real.exp (-((|d1 - d2| : ℚ) : ℝ) / 50)

/-- Cosine similarity of `(depth_percent, length, width)`, clamped to be
nonnegative; 0 when either magnitude is below `1e-10`. -/
noncomputable def dimensionalSimilarity (a1 a2 : Anomaly) : ℝ :=
  let dot := (a1.depth_percent : ℝ) * (a2.depth_percent : ℝ) +
    (a1.length : ℝ) * (a2.length : ℝ) + (a1.width : ℝ) * (a2.width : ℝ)
  let mag1 := Real.sqrt ((a1.depth_percent : ℝ) ^ 2 + (a1.length : ℝ) ^ 2 + (a1.width : ℝ) ^ 2)
  let mag2 := Real.sqrt ((a2.depth_percent : ℝ) ^ 2 + (a2.length : ℝ) ^ 2 + (a2.width : ℝ) ^ 2)
  if mag1 < 1 / 10 ^ 10 ∨ mag2 < 1 / 10 ^ 10 then 0 else max 0 (dot / (mag1 * mag2))

/-- Circular clock-position similarity. -/
def clockSimilarity (deg1 deg2 : ℚ) : ℚ :=
  let diff := |deg1 - deg2|
  let circularDiff := min diff (360 - diff)
  1 - circularDiff / 180

/-- The compatible feature-type pairs granted partial credit. -/
def compatibleTypePairs : List (FeatureType × FeatureType) :=
  [(.external_metal_loss, .metal_loss),
   (.internal_metal_loss, .metal_loss),
   (.external_metal_loss, .internal_metal_loss),
   (.crack, .gouge),
   (.girth_weld, .seam_weld)]

/-- Feature-type similarity: 1 when equal, 0.5 for compatible pairs, else 0. -/
def featureTypeSimilarity (t1 t2 : FeatureType) : ℚ :=
  if t1 = t2 then 1
  else if compatibleTypePairs.any (fun p =>
      (decide (t1 = p.1) && decide (t2 = p.2)) || (decide (t1 = p.2) && decide (t2 = p.1))) then
    1 / 2
  else 0

structure SimilarityBreakdown where
  distance : ℝ
  dimensional : ℝ
  clock : ℝ
  feature_type : ℝ
  total : ℝ
deriving Inhabited

/-- `calculateSimilarity`: the four components and their weighted total
(weights 0.40 / 0.30 / 0.20 / 0.10). -/
noncomputable def calculateSimilarity (a1 a2 : Anomaly) : SimilarityBreakdown :=
  let distSim := distanceSimilarity a1.corrected_distance a2.corrected_distance
  let dimSim := dimensionalSimilarity a1 a2
  let clockSim := clockSimilarity a1.clock_degrees a2.clock_degrees
  let typeSim := featureTypeSimilarity a1.canonical_type a2.canonical_type
  { distance := distSim
    dimensional := dimSim
    clock := (clockSim : ℝ)
    feature_type := (typeSim : ℝ)
    total := (2 / 5) * distSim + (3 / 10) * dimSim + (1 / 5) * (clockSim : ℝ) +
      (1 / 10) * (typeSim : ℝ) }

/-! ## Growth analyzer (`src/ili-pipeline-app/src/lib/analysis/growthRate.ts`)

The chart-only outputs (`depth_trend`, `predicted_depth_at_year`) are
omitted. -/

structure GrowthRates where
  depth_growth_rate : ℚ
  length_growth_rate : ℚ
  width_growth_rate : ℚ
  time_to_critical : Option ℚ
deriving DecidableEq, Repr, Inhabited

/-- Least-squares line fit; `(slope, intercept)`. -/
def linearRegression (x y : List ℚ) : ℚ × ℚ :=
  if x.length < 2 then (0, y.headD 0)
  else
    let n : ℚ := x.length
    let sumX := x.foldl (· + ·) 0
    let sumY := y.foldl (· + ·) 0
    let sumXY := x.enum.foldl (fun acc p => acc + p.2 * y.getD p.1 0) 0
    let sumX2 := x.foldl (fun acc xi => acc + xi * xi) 0
    let denom := n * sumX2 - sumX * sumX
    if |denom| < 1 / 10 ^ 10 then (0, sumY / n)
    else
      let slope := (n * sumXY - sumX * sumY) / denom
      (slope, (sumY - slope * sumX) / n)

/-- `calculateGrowthRates` over a chain's anomalies and the years of their
runs. -/
def calculateGrowthRates (anomalies : List Anomaly) (runIndices : List ℕ)
    (years : List ℚ) : GrowthRates :=
  if anomalies.length < 2 then ⟨0, 0, 0, none⟩
  else
    let seriesYears := (List.range anomalies.length).map
      (fun i => years.getD (runIndices.getD i 0) 0)
    let depthReg := linearRegression seriesYears (anomalies.map (fun a => a.depth_percent))
    let lengthReg := linearRegression seriesYears (anomalies.map (fun a => a.length))
    let widthReg := linearRegression seriesYears (anomalies.map (fun a => a.width))
    let currentDepth := (anomalies.getLastD default).depth_percent
    let ttc : Option ℚ :=
      if 0 < depthReg.1 ∧ currentDepth < 80 then some ((80 - currentDepth) / depthReg.1)
      else if 80 ≤ currentDepth then some 0
      else none
    ⟨depthReg.1, lengthReg.1, widthReg.1, ttc⟩

/-! ## Priority classifier (`src/unnamed/part_003`) -/

inductive PriorityLevel
  | immediate
  | sixty_day
  | one_eighty_day
  | scheduled
  | monitor
deriving DecidableEq, Repr, Inhabited

inductive MatchStatus
  | matched
  | uncertain
  | new
  | missing
deriving DecidableEq, Repr, Inhabited

/-- Priority classification; the deadline and citation strings are
omitted, the numeric sort score is kept. -/
structure PriorityClassification where
  level : PriorityLevel
  score : ℚ
deriving DecidableEq, Repr, Inhabited

/-- `ttc !== null && ttc <= bound`. -/
def ttcAtMost (ttc : Option ℚ) (bound : ℚ) : Prop :=
  match ttc with
  | some t => t ≤ bound
  | none => False

instance (ttc : Option ℚ) (bound : ℚ) : Decidable (ttcAtMost ttc bound) :=
  match ttc with
  | some t => inferInstanceAs (Decidable (t ≤ bound))
  | none => isFalse (fun h => h)

/-- `classifyPriority`: first matching band of the regulatory table, using
the latest chain anomaly's depth, the absolute depth growth rate, and the
time-to-critical.  The `matchStatus` argument is accepted but (as in the
source) never read. -/
def classifyPriority (anomalies : List Anomaly) (growth : GrowthRates)
    (_matchStatus : MatchStatus) : PriorityClassification :=
  let latest := anomalies.getLastD default
  let depth := latest.depth_percent
  let depthGrowth := |growth.depth_growth_rate|
  let ttc := growth.time_to_critical
  if 80 ≤ depth ∨ ttcAtMost ttc 1 ∨ 8 ≤ depthGrowth then ⟨.immediate, 100⟩
  else if 60 ≤ depth ∨ 5 ≤ depthGrowth ∨ ttcAtMost ttc 3 then ⟨.sixty_day, 80⟩
  else if 40 ≤ depth ∨ 2 ≤ depthGrowth then ⟨.one_eighty_day, 60⟩
  else if 20 ≤ depth ∨ 1 / 2 ≤ depthGrowth then ⟨.scheduled, 40⟩
  else ⟨.monitor, 20⟩

/-! ## Bipartite matcher (`src/ili-pipeline-app/src/lib/matching/hungarian.ts`) -/

structure CandidateScore where
  row : ℕ
  col : ℕ
  score : ℝ

/-- `buildCostMatrix`: an `nRows × nCols` matrix of the sentinel cost 1000,
with `1 - score` written at each candidate cell. -/
noncomputable def buildCostMatrix (similarities : List CandidateScore)
    (nRows nCols : ℕ) : List (List ℝ) :=
  let base := (List.range nRows).map (fun _ => (List.range nCols).map (fun _ => (1000 : ℝ)))
  similarities.foldl (fun m c => m.set c.row ((m.getD c.row []).set c.col (1 - c.score))) base

/-- Minimum of a list of reals (`Math.min(...)`); only applied to nonempty
lists, where the JS `Infinity` seed is immediately replaced. -/
noncomputable def listMinR : List ℝ → ℝ
  | [] => 0
  | x :: xs => xs.foldl min x

/-- The inner scan of the greedy assignment: the unused column `j < m`
with the smallest reduced cost (first such column on ties), if any. -/
noncomputable def greedyBestCol (row : List ℝ) (usedCols : List ℕ) (m : ℕ) : Option ℕ :=
  ((List.range m).foldl (fun best j =>
    if j ∈ usedCols then best
    else
      match best with
      | none => some (j, row.getD j 0)
      | some (bj, bc) =>
          if row.getD j 0 < bc then some (j, row.getD j 0) else some (bj, bc)) none).map
    Prod.fst

/-- One row of the greedy assignment scan: skip already-assigned rows,
otherwise take the best unused column (if any). -/
noncomputable def hungarianStep (matrix2 : List (List ℝ)) (m : ℕ)
    (st : List ℤ × List ℕ) (i : ℕ) : List ℤ × List ℕ :=
  if st.1.getD i (-1) ≠ -1 then st
  else
    match greedyBestCol (matrix2.getD i []) st.2 m with
    | none => st
    | some bestJ => (st.1.set i (bestJ : ℤ), st.2 ++ [bestJ])

/-- The three greedy passes over the reduced matrix. -/
noncomputable def hungarianPasses (matrix2 : List (List ℝ)) (n m : ℕ) :
    List ℤ × List ℕ :=
  (List.range 3).foldl (fun st _pass => (List.range n).foldl (hungarianStep matrix2 m) st)
    ((List.range n).map (fun _ => (-1 : ℤ)), ([] : List ℕ))

/-- `hungarianAlgorithm`: row/column reduction followed by three passes of
a greedy assignment scan.  Returns, per row, the assigned column (or -1). -/
noncomputable def hungarianAlgorithm (costMatrix : List (List ℝ)) : List ℤ :=
  let n := costMatrix.length
  let m := (costMatrix.headD []).length
  if n = 0 ∨ m = 0 then []
  else
    let size := max n m
    let matrix := (List.range size).map (fun i => (List.range size).map (fun j =>
      if i < n ∧ j < m then (costMatrix.getD i []).getD j 0 else 0))
    let matrix1 := matrix.map (fun row => row.map (fun x => x - listMinR row))
    let colMins := (List.range size).map
      (fun j => listMinR (matrix1.map (fun row => row.getD j 0)))
    let matrix2 := matrix1.map (fun row => row.enum.map (fun p => p.2 - colMins.getD p.1 0))
    (hungarianPasses matrix2 n m).1

/-- Invariant of the greedy scan (verification-support): the assignment
array keeps one entry per row, every assigned column is recorded in the
used set, and no column is assigned to two rows. -/
def hungarianInv (n : ℕ) (st : List ℤ × List ℕ) : Prop :=
  st.1.length = n ∧
  (∀ i, st.1.getD i (-1) ≠ -1 →
    0 ≤ st.1.getD i (-1) ∧ (st.1.getD i (-1)).toNat ∈ st.2) ∧
  (∀ i1 i2, i1 ≠ i2 → st.1.getD i1 (-1) ≠ -1 →
    st.1.getD i1 (-1) ≠ st.1.getD i2 (-1))

/-! ## Matcher and chainer (`src/unnamed/part_005`) -/

/-- One accepted pair between two consecutive runs; indices are the
anomalies' positions in the original (unfiltered) run arrays, exactly what
`run.indexOf(...)` recovers in the source. -/
structure PairMatch where
  run1Idx : ℕ
  run2Idx : ℕ
  similarity : SimilarityBreakdown

/-- Output of `matchAnomalies`: accepted pairs plus the unmatched indices
of each side. -/
structure MatchResult where
  pairs : List PairMatch
  newAnomalies : List ℕ
  missingAnomalies : List ℕ

/-- A candidate pair surviving the distance and minimum-similarity
filters; `row`/`col` index the filtered arrays. -/
structure Candidate where
  row : ℕ
  col : ℕ
  score : ℝ
  breakdown : SimilarityBreakdown

/-- The non-reference anomalies of a run, each tagged with its original
position (the JS object identity that `indexOf` recovers). -/
def nonRefEnum (run : List Anomaly) : List (ℕ × Anomaly) :=
  run.enum.filter (fun p => !p.2.is_reference_point)

/-- Candidate generation of `matchAnomalies`: all pairs of filtered
positions within 200 ft whose similarity total exceeds 0.20. -/
noncomputable def matchCandidates (r1 r2 : List (ℕ × Anomaly)) : List Candidate :=
  (List.range r1.length).flatMap (fun i =>
    (List.range r2.length).filterMap (fun j =>
      let a1 := (r1.getD i default).2
      let a2 := (r2.getD j default).2
      if 200 < |a1.corrected_distance - a2.corrected_distance| then none
      else
        let sim := calculateSimilarity a1 a2
        if (1 / 5 : ℝ) < sim.total then some ⟨i, j, sim.total, sim⟩ else none))

/-- Cost-matrix assignment of `matchAnomalies`. -/
noncomputable def matchAssignment (r1 r2 : List (ℕ × Anomaly)) : List ℤ :=
  hungarianAlgorithm (buildCostMatrix
    ((matchCandidates r1 r2).map (fun c => ⟨c.row, c.col, c.score⟩)) r1.length r2.length)

/-- One iteration of the result-extraction loop of `matchAnomalies`:
accept the assignment `i → assignment[i]` when the column is in range and
the candidate similarity is at least 0.40. -/
noncomputable def extractStep (cands : List Candidate) (assignment : List ℤ)
    (r1 r2 : List (ℕ × Anomaly)) (st : List PairMatch × List ℕ × List ℕ) (i : ℕ) :
    List PairMatch × List ℕ × List ℕ :=
  let j := assignment.getD i (-1)
  if j < 0 ∨ (r2.length : ℤ) ≤ j then st
  else
    match cands.find? (fun c => decide (c.row = i) && decide (c.col = j.toNat)) with
    | some cand =>
        if (2 / 5 : ℝ) ≤ cand.score then
          (st.1 ++ [⟨(r1.getD i default).1, (r2.getD j.toNat default).1, cand.breakdown⟩],
            st.2.1 ++ [i], st.2.2 ++ [j.toNat])
        else st
    | none => st

/-- `matchAnomalies`: candidate generation, cost-matrix assignment, and
acceptance at confidence ≥ 0.40. -/
noncomputable def matchAnomalies (run1 run2 : List Anomaly) : MatchResult :=
  let r1 := nonRefEnum run1
  let r2 := nonRefEnum run2
  let candidates := matchCandidates r1 r2
  let assignment := matchAssignment r1 r2
  let extracted := (List.range assignment.length).foldl
    (extractStep candidates assignment r1 r2) ([], [], [])
  { pairs := extracted.1
    newAnomalies := (List.range r2.length).filterMap (fun j =>
      if j ∈ extracted.2.2 then none else some (r2.getD j default).1)
    missingAnomalies := (List.range r1.length).filterMap (fun i =>
      if i ∈ extracted.2.1 then none else some (r1.getD i default).1) }

/-- Whether extraction accepts row `i` (verification-support predicate
mirroring the acceptance condition of `extractStep`). -/
noncomputable def acceptIdx (cands : List Candidate) (assignment : List ℤ)
    (r2 : List (ℕ × Anomaly)) (i : ℕ) : Bool :=
  let j := assignment.getD i (-1)
  if j < 0 ∨ (r2.length : ℤ) ≤ j then false
  else
    match cands.find? (fun c => decide (c.row = i) && decide (c.col = j.toNat)) with
    | some cand => decide ((2 / 5 : ℝ) ≤ cand.score)
    | none => false

/-- The column assigned to row `i`. -/
def colAt (assignment : List ℤ) (i : ℕ) : ℕ := (assignment.getD i (-1)).toNat

/-- The pair emitted for an accepted row `i` (verification-support). -/
noncomputable def pairAt (cands : List Candidate) (assignment : List ℤ)
    (r1 r2 : List (ℕ × Anomaly)) (i : ℕ) : PairMatch :=
  ⟨(r1.getD i default).1, (r2.getD (colAt assignment i) default).1,
    (((cands.find? (fun c => decide (c.row = i) &&
        decide (c.col = colAt assignment i))).map Candidate.breakdown).getD default)⟩

/-- The rows accepted by the extraction loop (verification-support). -/
noncomputable def acceptedRows (run1 run2 : List Anomaly) : List ℕ :=
  (List.range (matchAssignment (nonRefEnum run1) (nonRefEnum run2)).length).filter
    (acceptIdx (matchCandidates (nonRefEnum run1) (nonRefEnum run2))
      (matchAssignment (nonRefEnum run1) (nonRefEnum run2)) (nonRefEnum run2))

/-- An anomaly chain (`AnomalyMatch`).  The id string, deadline/citation
strings and GPS fields are omitted. -/
structure AnomalyMatch where
  anomalies : List Anomaly
  run_indices : List ℕ
  confidence : ℝ
  match_status : MatchStatus
  similarity_breakdown : SimilarityBreakdown
  depth_growth_rate : ℚ
  length_growth_rate : ℚ
  width_growth_rate : ℚ
  time_to_critical : Option ℚ
  priority : PriorityLevel

/-- The all-zero similarity breakdown used for `new`/`missing` chains. -/
def zeroBreakdown : SimilarityBreakdown := ⟨0, 0, 0, 0, 0⟩

/-- `buildMatchObject`: decorate a chain with growth and priority. -/
noncomputable def buildMatchObject (anomalies : List Anomaly) (runIndices : List ℕ)
    (confidence : ℝ) (status : MatchStatus) (similarity : SimilarityBreakdown)
    (years : List ℚ) : AnomalyMatch :=
  let growth := calculateGrowthRates anomalies runIndices years
  let priority := classifyPriority anomalies growth status
  { anomalies := anomalies
    run_indices := runIndices
    confidence := confidence
    match_status := status
    similarity_breakdown := similarity
    depth_growth_rate := growth.depth_growth_rate
    length_growth_rate := growth.length_growth_rate
    width_growth_rate := growth.width_growth_rate
    time_to_critical := growth.time_to_critical
    priority := priority.level }

/-- `Map.set` on an association list with ℕ keys (insertion order kept,
existing key overwritten in place). -/
def alistSet {β : Type} (l : List (ℕ × β)) (k : ℕ) (v : β) : List (ℕ × β) :=
  if l.any (fun e => decide (e.1 = k)) then
    l.map (fun e => if e.1 = k then (k, v) else e)
  else l ++ [(k, v)]

/-- `Map.get`. -/
def alistGet {β : Type} (l : List (ℕ × β)) (k : ℕ) : Option β :=
  (l.find? (fun e => decide (e.1 = k))).map (fun e => e.2)

/-- `Map.delete`. -/
def alistErase {β : Type} (l : List (ℕ × β)) (k : ℕ) : List (ℕ × β) :=
  l.filter (fun e => decide (e.1 ≠ k))

/-- The loop body chaining a matched run0-run1 pair (and the consumed
run2 continuation, when present) into a chain object. -/
noncomputable def chainStep1 (three : Bool) (run0 run1 run2 : List Anomaly)
    (years : List ℚ) (st : List AnomalyMatch × List (ℕ × ℕ × SimilarityBreakdown))
    (pair : PairMatch) : List AnomalyMatch × List (ℕ × ℕ × SimilarityBreakdown) :=
  let base := [run0.getD pair.run1Idx default, run1.getD pair.run2Idx default]
  let ext :=
    match alistGet st.2 pair.run2Idx with
    | some v =>
        if three then
          (base ++ [run2.getD v.1 default], [0, 1, 2], alistErase st.2 pair.run2Idx)
        else (base, [0, 1], st.2)
    | none => (base, [0, 1], st.2)
  let confidence := pair.similarity.total
  let status : MatchStatus :=
    if confidence < 7 / 10 ∧ 2 / 5 ≤ confidence then .uncertain else .matched
  (st.1 ++ [buildMatchObject ext.1 ext.2.1 confidence status pair.similarity years],
    ext.2.2)

/-- The loop body chaining a run1 anomaly that is new relative to run0
(and its run2 continuation, when present) into a chain object. -/
noncomputable def chainStep2 (three : Bool) (run1 run2 : List Anomaly)
    (years : List ℚ) (st : List AnomalyMatch × List (ℕ × ℕ × SimilarityBreakdown))
    (run2Idx : ℕ) : List AnomalyMatch × List (ℕ × ℕ × SimilarityBreakdown) :=
  let base := [run1.getD run2Idx default]
  let ext :=
    match alistGet st.2 run2Idx with
    | some v =>
        if three then (base ++ [run2.getD v.1 default], [1, 2], alistErase st.2 run2Idx)
        else (base, [1], st.2)
    | none => (base, [1], st.2)
  (st.1 ++ [buildMatchObject ext.1 ext.2.1 0 .new zeroBreakdown years], ext.2.2)

/-- `matchAcrossRuns`: orchestrate matching across (up to three) runs and
build the chain objects. -/
noncomputable def matchAcrossRuns (runs : List (List Anomaly)) (years : List ℚ) :
    List AnomalyMatch :=
  if runs.length < 2 then []
  else
    let run0 := runs.getD 0 []
    let run1 := runs.getD 1 []
    let run2 := runs.getD 2 []
    let match12 := matchAnomalies run0 run1
    let match23 : Option MatchResult :=
      if 3 ≤ runs.length then some (matchAnomalies run1 run2) else none
    let map0 : List (ℕ × ℕ × SimilarityBreakdown) :=
      match match23 with
      | some m23 =>
          m23.pairs.foldl (fun acc p => alistSet acc p.run1Idx (p.run2Idx, p.similarity)) []
      | none => []
    let step1 := match12.pairs.foldl
      (chainStep1 (decide (2 < runs.length)) run0 run1 run2 years) ([], map0)
    let step2 := match12.newAnomalies.foldl
      (chainStep2 (decide (2 < runs.length)) run1 run2 years) step1
    let withMissing := step2.1 ++ match12.missingAnomalies.map
      (fun run1Idx => buildMatchObject [run0.getD run1Idx default] [0] 0 .missing
        zeroBreakdown years)
    match match23 with
    | none => withMissing
    | some m23 =>
        let leftover :=
          if 2 < runs.length then
            step2.2.map (fun e =>
              buildMatchObject [run2.getD e.2.1 default] [2] 0 .new zeroBreakdown years)
          else []
        let run3New :=
          if 2 < runs.length then
            m23.newAnomalies.map (fun j =>
              buildMatchObject [run2.getD j default] [2] 0 .new zeroBreakdown years)
          else []
        withMissing ++ leftover ++ run3New

/-- The status/confidence invariant of a single chain
(verification-support predicate). -/
def chainOK (c : AnomalyMatch) : Prop :=
  (c.match_status = .matched → (7 / 10 : ℝ) ≤ c.confidence) ∧
  (c.match_status = .uncertain →
    ((2 / 5 : ℝ) ≤ c.confidence ∧ c.confidence < 7 / 10)) ∧
  ((c.match_status = .new ∨ c.match_status = .missing) → c.confidence = 0)

/-! ## Concrete fixtures used by witnesses and counterexamples -/

/-- A plain non-reference metal-loss anomaly with zero fields. -/
def baseAnomaly : Anomaly :=
  { distance := 0, odometer := 0, corrected_distance := 0, joint_number := 0,
    relative_position := 0, clock_degrees := 0, canonical_type := .metal_loss,
    depth_percent := 0, length := 0, width := 0, wall_thickness := 3 / 8,
    run_index := 0, is_reference_point := false, has_missing_data := false,
    cleaning_flags := [] }

/-- A girth-weld reference-point anomaly. -/
def gwAnomaly : Anomaly :=
  { baseAnomaly with canonical_type := .girth_weld, is_reference_point := true }

/-- A single matched reference pair whose two sides disagree by 50 ft. -/
def refPairSingle : MatchedReference := ⟨⟨100⟩, ⟨150⟩⟩

/-- An anomaly of the later run at raw distance 50. -/
def anomalyAt50 : Anomaly := { baseAnomaly with distance := 50, corrected_distance := 50 }

/-- Three matched reference pairs whose first zone has zero raw (run2)
span: the boundary point 10 is mapped to 0 by the first zone and to 5 by
the second. -/
def refsZeroSpan : List MatchedReference := [⟨⟨0⟩, ⟨10⟩⟩, ⟨⟨5⟩, ⟨10⟩⟩, ⟨⟨20⟩, ⟨30⟩⟩]

/-- Two identity reference pairs (both sides at equal distances). -/
def refsIdentity : List MatchedReference := [⟨⟨0⟩, ⟨0⟩⟩, ⟨⟨10⟩, ⟨10⟩⟩]

/-- Three identity reference pairs, giving two zones with positive spans. -/
def refsThree : List MatchedReference := [⟨⟨0⟩, ⟨0⟩⟩, ⟨⟨10⟩, ⟨10⟩⟩, ⟨⟨20⟩, ⟨20⟩⟩]

/-- An anomaly of the later run at raw distance 5. -/
def anomalyAt5 : Anomaly := { baseAnomaly with distance := 5, corrected_distance := 5 }

/-- A raw row whose values trigger no cleaning transformation. -/
def rawRowPlain : RawAnomaly :=
  { distance := some 200000, odometer := some 200000, joint_number := some 0,
    relative_position := some 0, clock_position := .missing,
    feature_type := some .metal_loss, depth_percent := some 50, length := some 2,
    width := some 2, wall_thickness := some 1 }

/-- The normalized and cleaned image of `rawRowPlain`. -/
def cleanedRowPlain : Anomaly :=
  { baseAnomaly with
    distance := 200000
    odometer := 200000
    corrected_distance := 200000
    depth_percent := 50
    length := 2
    width := 2
    wall_thickness := 1
    has_missing_data := true }

/-- A raw row with clock position -3 (a value the spec reads as 9:00 but
the JS remainder turns into -90 "degrees"). -/
def rawRowClockNeg : RawAnomaly :=
  { rawRowPlain with distance := some 0, odometer := some 1, clock_position := .num (-3) }

/-- A raw row with clock position 350 degrees. -/
def rawRowClock350 : RawAnomaly :=
  { rawRowPlain with distance := some 5, odometer := some 5, clock_position := .num 350 }

/-- An anomaly at 82 % depth. -/
def deepAnomaly : Anomaly := { baseAnomaly with depth_percent := 82 }

/-! ## List access helper lemmas -/

theorem getD_mem {α : Type} (l : List α) (i : ℕ) (d : α) (h : i < l.length) :
    l.getD i d ∈ l := by
  induction l generalizing i with
  | nil => simp at h
  | cons x xs ih =>
      cases i with
      | zero => simp [List.getD]
      | succ k =>
          simp only [List.getD_cons_succ]
          exact List.mem_cons_of_mem _ (ih k (by simpa using h))

theorem headD_mem {α : Type} (l : List α) (d : α) (h : l ≠ []) : l.headD d ∈ l := by
  cases l with
  | nil => exact absurd rfl h
  | cons x xs => simp

theorem getLastD_mem {α : Type} (l : List α) (d : α) (h : l ≠ []) : l.getLastD d ∈ l := by
  induction l with
  | nil => exact absurd rfl h
  | cons x xs ih =>
      cases xs with
      | nil => simp [List.getLastD]
      | cons y ys =>
          rw [List.getLastD_cons]
          exact List.mem_cons_of_mem _ (ih (by simp))

theorem rangeMap_getD {α : Type} (k : ℕ) (f : ℕ → α) (i : ℕ) (d : α) (h : i < k) :
    ((List.range k).map f).getD i d = f i := by
  rw [List.getD_eq_getElem?_getD, List.getElem?_map, List.getElem?_range h]
  rfl

theorem pairwise_getD {α : Type} {R : α → α → Prop} {l : List α} (h : l.Pairwise R)
    (i j : ℕ) (d : α) (hij : i < j) (hj : j < l.length) :
    R (l.getD i d) (l.getD j d) := by
  have hi : i < l.length := lt_trans hij hj
  rw [List.getD_eq_getElem?_getD, List.getElem?_eq_getElem hi,
    List.getD_eq_getElem?_getD, List.getElem?_eq_getElem hj]
  exact List.pairwise_iff_get.mp h ⟨i, hi⟩ ⟨j, hj⟩ hij

/-! ## Claim C8: priority bands -/

/-- Claim C8: with `d` the latest chain anomaly's depth, `g` the absolute
depth growth rate, and `t` the time-to-critical, `classifyPriority`
returns the first band of the regulatory table whose condition holds:
IMMEDIATE iff `d ≥ 80 ∨ (t ≠ null ∧ t ≤ 1) ∨ g ≥ 8`; otherwise 60-DAY iff
`d ≥ 60 ∨ g ≥ 5 ∨ (t ≠ null ∧ t ≤ 3)`; otherwise 180-DAY iff
`d ≥ 40 ∨ g ≥ 2`; otherwise SCHEDULED iff `d ≥ 20 ∨ g ≥ 0.5`; otherwise
MONITOR. -/
theorem classifyPriority_first_band (anomalies : List Anomaly) (growth : GrowthRates)
    (status : MatchStatus) (hne : anomalies ≠ []) :
    ((classifyPriority anomalies growth status).level = PriorityLevel.immediate ↔
      (80 ≤ (anomalies.getLast hne).depth_percent ∨
        ttcAtMost growth.time_to_critical 1 ∨ 8 ≤ |growth.depth_growth_rate|)) ∧
    ((classifyPriority anomalies growth status).level = PriorityLevel.sixty_day ↔
      (¬(80 ≤ (anomalies.getLast hne).depth_percent ∨
          ttcAtMost growth.time_to_critical 1 ∨ 8 ≤ |growth.depth_growth_rate|) ∧
        (60 ≤ (anomalies.getLast hne).depth_percent ∨ 5 ≤ |growth.depth_growth_rate| ∨
          ttcAtMost growth.time_to_critical 3))) ∧
    ((classifyPriority anomalies growth status).level = PriorityLevel.one_eighty_day ↔
      (¬(80 ≤ (anomalies.getLast hne).depth_percent ∨
          ttcAtMost growth.time_to_critical 1 ∨ 8 ≤ |growth.depth_growth_rate|) ∧
        ¬(60 ≤ (anomalies.getLast hne).depth_percent ∨ 5 ≤ |growth.depth_growth_rate| ∨
          ttcAtMost growth.time_to_critical 3) ∧
        (40 ≤ (anomalies.getLast hne).depth_percent ∨ 2 ≤ |growth.depth_growth_rate|))) ∧
    ((classifyPriority anomalies growth status).level = PriorityLevel.scheduled ↔
      (¬(80 ≤ (anomalies.getLast hne).depth_percent ∨
          ttcAtMost growth.time_to_critical 1 ∨ 8 ≤ |growth.depth_growth_rate|) ∧
        ¬(60 ≤ (anomalies.getLast hne).depth_percent ∨ 5 ≤ |growth.depth_growth_rate| ∨
          ttcAtMost growth.time_to_critical 3) ∧
        ¬(40 ≤ (anomalies.getLast hne).depth_percent ∨ 2 ≤ |growth.depth_growth_rate|) ∧
        (20 ≤ (anomalies.getLast hne).depth_percent ∨ 1 / 2 ≤ |growth.depth_growth_rate|))) ∧
    ((classifyPriority anomalies growth status).level = PriorityLevel.monitor ↔
      (¬(80 ≤ (anomalies.getLast hne).depth_percent ∨
          ttcAtMost growth.time_to_critical 1 ∨ 8 ≤ |growth.depth_growth_rate|) ∧
        ¬(60 ≤ (anomalies.getLast hne).depth_percent ∨ 5 ≤ |growth.depth_growth_rate| ∨
          ttcAtMost growth.time_to_critical 3) ∧
        ¬(40 ≤ (anomalies.getLast hne).depth_percent ∨ 2 ≤ |growth.depth_growth_rate|) ∧
        ¬(20 ≤ (anomalies.getLast hne).depth_percent ∨ 1 / 2 ≤ |growth.depth_growth_rate|))) := by
  have hlast : anomalies.getLastD default = anomalies.getLast hne := by
    rw [List.getLastD_eq_getLast?, List.getLast?_eq_getLast anomalies hne]
    rfl
  unfold classifyPriority
  rw [hlast]
  dsimp only
  split_ifs with h1 h2 h3 h4 <;> simp_all

/-- Witness for C8 at an 82 %-depth single-anomaly chain. -/
theorem classifyPriority_first_band_witness :
    ([deepAnomaly] : List Anomaly) ≠ [] ∧
    ((classifyPriority [deepAnomaly] ⟨0, 0, 0, none⟩ MatchStatus.missing).level =
        PriorityLevel.immediate ↔
      (80 ≤ (([deepAnomaly] : List Anomaly).getLast (by simp)).depth_percent ∨
        ttcAtMost none 1 ∨ 8 ≤ |(0 : ℚ)|)) :=
  ⟨by simp,
    (classifyPriority_first_band [deepAnomaly] ⟨0, 0, 0, none⟩ MatchStatus.missing
      (by simp)).1⟩

/-! ## Claim C2: single reference pair -/

/-- Claim C2 counterexample: with exactly one matched reference pair
(run1 at 100 ft, run2 at 150 ft) the corrector does not translate.  The
anomaly at raw distance 50 keeps corrected distance 50, whereas the
claimed translation `raw + (ref_a.distance - ref_b.distance)` would give
0 ≠ 50. -/
theorem singlePair_no_translation_counterexample :
    createAlignmentZones [refPairSingle] = [] ∧
    ((applyDistanceCorrection [anomalyAt50] (createAlignmentZones [refPairSingle])
        [refPairSingle]).getD 0 default).corrected_distance = 50 ∧
    (50 : ℚ) + (refPairSingle.run1.distance - refPairSingle.run2.distance) ≠ 50 := by
  have hz : createAlignmentZones [refPairSingle] = [] := by
    unfold createAlignmentZones
    norm_num
  refine ⟨hz, ?_, ?_⟩
  · rw [hz]
    unfold applyDistanceCorrection
    norm_num [anomalyAt50, baseAnomaly]
  · norm_num [refPairSingle]

/-- Claim C2 (amended): if exactly one reference pair is matched, zero
alignment zones are built and the corrector returns the later run's
anomalies unchanged (no translation is applied). -/
theorem singlePair_zero_zones_unchanged (anomalies : List Anomaly)
    (matchedRefs : List MatchedReference) (h1 : matchedRefs.length = 1) :
    createAlignmentZones matchedRefs = [] ∧
    applyDistanceCorrection anomalies (createAlignmentZones matchedRefs) matchedRefs =
      anomalies := by
  have hz : createAlignmentZones matchedRefs = [] := by
    unfold createAlignmentZones
    rw [if_pos]
    omega
  refine ⟨hz, ?_⟩
  rw [hz]
  unfold applyDistanceCorrection
  simp

/-- Witness for the amended C2 at the concrete single pair. -/
theorem singlePair_zero_zones_unchanged_witness :
    ([refPairSingle] : List MatchedReference).length = 1 ∧
    (createAlignmentZones [refPairSingle] = [] ∧
      applyDistanceCorrection [anomalyAt50] (createAlignmentZones [refPairSingle])
        [refPairSingle] = [anomalyAt50]) :=
  ⟨rfl, singlePair_zero_zones_unchanged [anomalyAt50] [refPairSingle] rfl⟩

/-! ## Alignment-zone structure lemmas -/

theorem createAlignmentZones_mem (matchedRefs : List MatchedReference) (z : AlignmentZone)
    (hz : z ∈ createAlignmentZones matchedRefs) :
    z.start_ref ∈ matchedRefs ∧ z.end_ref ∈ matchedRefs ∧
      z.start_ref.run1.distance ≤ z.end_ref.run1.distance := by
  by_cases hlen : matchedRefs.length < 2
  · simp only [createAlignmentZones, if_pos hlen] at hz
    simp at hz
  · simp only [createAlignmentZones, if_neg hlen] at hz
    rcases List.mem_map.mp hz with ⟨i, hi, hzi⟩
    have hslen : (sortByKey (fun m => m.run1.distance) matchedRefs).length =
        matchedRefs.length := (sortByKey_perm _ _).length_eq
    have hiR : i < (sortByKey (fun m => m.run1.distance) matchedRefs).length - 1 :=
      List.mem_range.mp hi
    have hi1 : i + 1 < (sortByKey (fun m => m.run1.distance) matchedRefs).length := by
      omega
    have hi0 : i < (sortByKey (fun m => m.run1.distance) matchedRefs).length := by omega
    have hstart : z.start_ref =
        (sortByKey (fun m => m.run1.distance) matchedRefs).getD i default := by
      rw [← hzi]
    have hend : z.end_ref =
        (sortByKey (fun m => m.run1.distance) matchedRefs).getD (i + 1) default := by
      rw [← hzi]
    refine ⟨?_, ?_, ?_⟩
    · rw [hstart]
      exact (sortByKey_mem _ _ _).mp (getD_mem _ _ _ hi0)
    · rw [hend]
      exact (sortByKey_mem _ _ _).mp (getD_mem _ _ _ hi1)
    · rw [hstart, hend]
      exact pairwise_getD (sortByKey_sorted _ _) i (i + 1) default (by omega) hi1

/-! ## Claim C6: identity alignment -/

/-- Claim C6: if every matched reference pair has equal distances on both
sides, then the distance corrector maps every anomaly whose incoming
corrected distance equals its raw distance (the state the normalizer
establishes) back to its raw distance. -/
theorem identityAlignment_corrected_eq_raw (anomalies : List Anomaly)
    (matchedRefs : List MatchedReference)
    (hid : ∀ m ∈ matchedRefs, m.run1.distance = m.run2.distance)
    (hin : ∀ a ∈ anomalies, a.corrected_distance = a.distance) :
    ∀ b ∈ applyDistanceCorrection anomalies (createAlignmentZones matchedRefs) matchedRefs,
      b.corrected_distance = b.distance := by
  intro b hb
  by_cases hguard : (createAlignmentZones matchedRefs).length = 0 ∨ matchedRefs.length < 2
  · rw [applyDistanceCorrection, if_pos hguard] at hb
    exact hin b hb
  · rw [applyDistanceCorrection, if_neg hguard] at hb
    push_neg at hguard
    have hlen2 : 2 ≤ matchedRefs.length := hguard.2
    have hsne : sortByKey (fun m => m.run2.distance) matchedRefs ≠ [] := by
      intro hc
      have := (sortByKey_perm (fun m => m.run2.distance) matchedRefs).length_eq
      rw [hc] at this
      simp at this
      omega
    rcases List.mem_map.mp hb with ⟨a, ha, hab⟩
    subst hab
    dsimp only
    cases hfind : (createAlignmentZones matchedRefs).find? (fun z =>
        decide (z.start_ref.run2.distance ≤ a.distance) &&
          decide (a.distance ≤ z.end_ref.run2.distance)) with
    | some zone =>
        dsimp only
        have hmem := List.mem_of_find?_eq_some hfind
        have hpred := List.find?_some hfind
        rw [Bool.and_eq_true, decide_eq_true_eq, decide_eq_true_eq] at hpred
        obtain ⟨hsmem, hemem, hord⟩ := createAlignmentZones_mem matchedRefs zone hmem
        have hs := hid _ hsmem
        have he := hid _ hemem
        unfold zoneCorrected
        by_cases hspan : 0 < zone.end_ref.run2.distance - zone.start_ref.run2.distance
        · rw [if_pos hspan]
          rw [← hs, ← he] at hspan ⊢
          have hne0 : zone.end_ref.run1.distance - zone.start_ref.run1.distance ≠ 0 :=
            ne_of_gt hspan
          field_simp
        · rw [if_neg hspan]
          push_neg at hspan
          linarith [hpred.1, hpred.2, hs]
    | none =>
        dsimp only
        have hfmem : (sortByKey (fun m => m.run2.distance) matchedRefs).headD default ∈
            matchedRefs :=
          (sortByKey_mem _ _ _).mp (headD_mem _ _ hsne)
        have hlmem : (sortByKey (fun m => m.run2.distance) matchedRefs).getLastD default ∈
            matchedRefs :=
          (sortByKey_mem _ _ _).mp (getLastD_mem _ _ hsne)
        have hf := hid _ hfmem
        have hl := hid _ hlmem
        split_ifs with hc1 hc2
        · rw [hf]; ring
        · rw [hl]; ring
        · rfl

/-- Witness for C6 at two identity pairs and one anomaly at 5 ft. -/
theorem identityAlignment_corrected_eq_raw_witness :
    (∀ m ∈ refsIdentity, m.run1.distance = m.run2.distance) ∧
    (∀ a ∈ ([anomalyAt5] : List Anomaly), a.corrected_distance = a.distance) ∧
    (∀ b ∈ applyDistanceCorrection [anomalyAt5] (createAlignmentZones refsIdentity)
        refsIdentity, b.corrected_distance = b.distance) :=
  ⟨by simp [refsIdentity], by simp [anomalyAt5, baseAnomaly],
    identityAlignment_corrected_eq_raw [anomalyAt5] refsIdentity (by simp [refsIdentity])
      (by simp [anomalyAt5, baseAnomaly])⟩

/-! ## Claim C4: zone monotonicity and boundary agreement -/

theorem createAlignmentZones_adjacent (matchedRefs : List MatchedReference) (i : ℕ)
    (h : i + 1 < (createAlignmentZones matchedRefs).length) :
    ((createAlignmentZones matchedRefs).getD i default).end_ref =
      ((createAlignmentZones matchedRefs).getD (i + 1) default).start_ref := by
  by_cases hlen : matchedRefs.length < 2
  · simp [createAlignmentZones, if_pos hlen] at h
  · simp only [createAlignmentZones, if_neg hlen] at h ⊢
    rw [List.length_map, List.length_range] at h
    rw [rangeMap_getD _ _ i default (by omega), rangeMap_getD _ _ (i + 1) default (by omega)]

/-- Claim C4 (amended): for every list of matched reference pairs, the
per-zone correction map is monotone non-decreasing on each zone's raw
interval; and at every internal zone boundary whose left zone has a
positive raw (run2) span, the two adjacent zone maps agree exactly on the
boundary point.  (When the left zone's raw span is zero the maps can
disagree; see the counterexample.) -/
theorem zoneMap_monotone_and_boundary (matchedRefs : List MatchedReference) :
    (∀ z ∈ createAlignmentZones matchedRefs, ∀ d1 d2 : ℚ,
      z.start_ref.run2.distance ≤ d1 → d1 ≤ d2 → d2 ≤ z.end_ref.run2.distance →
      zoneCorrected z d1 ≤ zoneCorrected z d2) ∧
    (∀ i : ℕ, i + 1 < (createAlignmentZones matchedRefs).length →
      ((createAlignmentZones matchedRefs).getD i default).start_ref.run2.distance <
        ((createAlignmentZones matchedRefs).getD i default).end_ref.run2.distance →
      zoneCorrected ((createAlignmentZones matchedRefs).getD i default)
          (((createAlignmentZones matchedRefs).getD i default).end_ref.run2.distance) =
        zoneCorrected ((createAlignmentZones matchedRefs).getD (i + 1) default)
          (((createAlignmentZones matchedRefs).getD (i + 1) default).start_ref.run2.distance)) := by
  constructor
  · intro z hz d1 d2 _hd1 hd12 _hd2
    obtain ⟨_, _, hord⟩ := createAlignmentZones_mem matchedRefs z hz
    unfold zoneCorrected
    by_cases hspan : 0 < z.end_ref.run2.distance - z.start_ref.run2.distance
    · rw [if_pos hspan, if_pos hspan]
      have hnum : (d1 - z.start_ref.run2.distance) / (z.end_ref.run2.distance -
          z.start_ref.run2.distance) ≤ (d2 - z.start_ref.run2.distance) /
          (z.end_ref.run2.distance - z.start_ref.run2.distance) :=
        (div_le_div_iff_of_pos_right hspan).mpr (by linarith)
      have := mul_le_mul_of_nonneg_right hnum (by linarith :
        (0 : ℚ) ≤ z.end_ref.run1.distance - z.start_ref.run1.distance)
      linarith
    · rw [if_neg hspan, if_neg hspan]
  · intro i hi hspan
    have hadj := createAlignmentZones_adjacent matchedRefs i hi
    have hne : ((createAlignmentZones matchedRefs).getD i default).end_ref.run2.distance -
        ((createAlignmentZones matchedRefs).getD i default).start_ref.run2.distance ≠ 0 := by
      linarith
    unfold zoneCorrected
    dsimp only
    rw [← hadj]
    rw [if_pos (by linarith : (0 : ℚ) <
      ((createAlignmentZones matchedRefs).getD i default).end_ref.run2.distance -
        ((createAlignmentZones matchedRefs).getD i default).start_ref.run2.distance)]
    split_ifs with h2
    · rw [div_self hne]
      simp
    · rw [div_self hne]
      simp

/-- Witness for the amended C4 on three identity pairs: monotonicity
inside the first zone at 3 ≤ 7, and boundary agreement at the internal
boundary 10. -/
theorem zoneMap_monotone_and_boundary_witness :
    ((createAlignmentZones refsThree).getD 0 default ∈ createAlignmentZones refsThree ∧
      zoneCorrected ((createAlignmentZones refsThree).getD 0 default) 3 ≤
        zoneCorrected ((createAlignmentZones refsThree).getD 0 default) 7) ∧
    (0 + 1 < (createAlignmentZones refsThree).length ∧
      zoneCorrected ((createAlignmentZones refsThree).getD 0 default)
          (((createAlignmentZones refsThree).getD 0 default).end_ref.run2.distance) =
        zoneCorrected ((createAlignmentZones refsThree).getD 1 default)
          (((createAlignmentZones refsThree).getD 1 default).start_ref.run2.distance)) := by
  have hz : createAlignmentZones refsThree =
      [⟨⟨⟨0⟩, ⟨0⟩⟩, ⟨⟨10⟩, ⟨10⟩⟩, 1, false⟩, ⟨⟨⟨10⟩, ⟨10⟩⟩, ⟨⟨20⟩, ⟨20⟩⟩, 1, false⟩] := by
    norm_num [createAlignmentZones, refsThree, sortByKey, insertByKey, List.range_succ]
  have hmem : (createAlignmentZones refsThree).getD 0 default ∈
      createAlignmentZones refsThree := by
    rw [hz]; simp
  have hb1 : (createAlignmentZones refsThree).getD 0 default ∈ createAlignmentZones refsThree ∧
      zoneCorrected ((createAlignmentZones refsThree).getD 0 default) 3 ≤
        zoneCorrected ((createAlignmentZones refsThree).getD 0 default) 7 := by
    refine ⟨hmem, ?_⟩
    refine (zoneMap_monotone_and_boundary refsThree).1 _ hmem 3 7 ?_ (by norm_num) ?_
    · rw [hz]; simp
    · rw [hz]; norm_num
  refine ⟨hb1, ?_, ?_⟩
  · rw [hz]; norm_num
  · refine (zoneMap_monotone_and_boundary refsThree).2 0 ?_ ?_ <;> rw [hz] <;> norm_num

/-- Claim C4 counterexample: for the pairs `refsZeroSpan` the first zone
has zero raw span.  The internal boundary between zones 0 and 1 is the
shared pair at raw distance 10, but zone 0 maps 10 to 0 while zone 1 maps
10 to 5: the adjacent maps differ by 5 ft, far beyond 1e-6. -/
theorem zoneBoundary_disagreement_counterexample :
    ((createAlignmentZones refsZeroSpan).getD 0 default).end_ref =
      ((createAlignmentZones refsZeroSpan).getD 1 default).start_ref ∧
    ((createAlignmentZones refsZeroSpan).getD 0 default).end_ref.run2.distance = 10 ∧
    zoneCorrected ((createAlignmentZones refsZeroSpan).getD 0 default) 10 = 0 ∧
    zoneCorrected ((createAlignmentZones refsZeroSpan).getD 1 default) 10 = 5 ∧
    ¬(|(0 : ℚ) - 5| ≤ 1 / 1000000) := by
  have hz : createAlignmentZones refsZeroSpan =
      [⟨⟨⟨0⟩, ⟨10⟩⟩, ⟨⟨5⟩, ⟨10⟩⟩, 0, true⟩, ⟨⟨⟨5⟩, ⟨10⟩⟩, ⟨⟨20⟩, ⟨30⟩⟩, 4 / 3, true⟩] := by
    norm_num [createAlignmentZones, refsZeroSpan, sortByKey, insertByKey, List.range_succ,
      abs_of_pos]
  rw [hz]
  norm_num [zoneCorrected]

/-! ## Cleaner invariants -/

theorem removeDuplicatesAux_sublist (seen : List (ℤ × ℤ × FeatureType × ℤ))
    (l : List Anomaly) : (removeDuplicatesAux seen l).Sublist l := by
  induction l generalizing seen with
  | nil => simp [removeDuplicatesAux]
  | cons a rest ih =>
      rw [removeDuplicatesAux]
      split_ifs with h
      · exact (ih seen).trans (List.sublist_cons_self a rest)
      · exact (ih (dedupKey a :: seen)).cons₂ a

theorem removeDuplicates_sublist (l : List Anomaly) : (removeDuplicates l).Sublist l :=
  removeDuplicatesAux_sublist [] l

/-- Distance fields of the pass-2 row conversions. -/
theorem convertDistanceRow_fields (a : Anomaly) :
    (convertDistanceRow a).distance = a.distance * metersToFeet ∧
    (convertDistanceRow a).corrected_distance = a.corrected_distance * metersToFeet ∧
    (convertDistanceRow a).cleaning_flags =
      a.cleaning_flags ++ [CleaningFlag.distance_converted_m_to_ft] :=
  ⟨rfl, rfl, rfl⟩

/-- `corrected_distance = distance` is preserved by every cleaning pass,
hence by `cleanData` as a whole. -/
theorem cleanData_preserves_corrected_eq (anomalies : List Anomaly)
    (otherRuns : List (List Anomaly))
    (h : ∀ a ∈ anomalies, a.corrected_distance = a.distance) :
    ∀ b ∈ cleanData anomalies otherRuns, b.corrected_distance = b.distance := by
  have h1 : ∀ b ∈ removeDuplicates anomalies, b.corrected_distance = b.distance :=
    fun b hb => h b ((removeDuplicates_sublist anomalies).mem hb)
  have h2 : ∀ b ∈ detectAndConvertUnits (removeDuplicates anomalies),
      b.corrected_distance = b.distance := by
    unfold detectAndConvertUnits
    dsimp only
    split_ifs <;> intro b hb <;>
      [skip; skip; skip; skip; skip; skip; skip; skip] <;>
      repeat'
        first
        | exact h1 b hb
        | (rcases List.mem_map.mp hb with ⟨c, hc, rfl⟩
           first
           | (rcases List.mem_map.mp hc with ⟨e, he, rfl⟩
              first
              | (rcases List.mem_map.mp he with ⟨g, hg, rfl⟩
                 simp [convertDistanceRow, convertDimensionsRow, convertWtRow, h1 g hg])
              | simp [convertDistanceRow, convertDimensionsRow, convertWtRow, h1 e he])
           | simp [convertDistanceRow, convertDimensionsRow, convertWtRow, h1 c hc])
  have h3 : ∀ b ∈ clampOutliers (detectAndConvertUnits (removeDuplicates anomalies)),
      b.corrected_distance = b.distance := by
    intro b hb
    rcases List.mem_map.mp hb with ⟨c, hc, rfl⟩
    simpa [clampOutlierRow] using h2 c hc
  have h4 : ∀ b ∈ interpolateMissing (clampOutliers (detectAndConvertUnits
      (removeDuplicates anomalies))), b.corrected_distance = b.distance := by
    intro b hb
    rcases List.mem_map.mp hb with ⟨idx, hidx, rfl⟩
    have hlt := List.mem_range.mp hidx
    have hmem := getD_mem _ idx default hlt
    have := h3 _ hmem
    dsimp only
    split_ifs <;> simp_all
  have h5 : ∀ b ∈ enforceMonotonicity (interpolateMissing (clampOutliers
      (detectAndConvertUnits (removeDuplicates anomalies)))),
      b.corrected_distance = b.distance := by
    intro b hb
    rcases List.mem_map.mp hb with ⟨idx, hidx, rfl⟩
    have hlt := List.mem_range.mp hidx
    have hmem := getD_mem _ idx default hlt
    have := h4 _ hmem
    dsimp only
    split_ifs <;> simp_all
  set d5 := enforceMonotonicity (interpolateMissing (clampOutliers
    (detectAndConvertUnits (removeDuplicates anomalies)))) with hd5
  have h6 : ∀ b ∈ (if otherRuns.length ≠ 0 then crossRunWallThickness d5 otherRuns else d5),
      b.corrected_distance = b.distance := by
    split_ifs
    · unfold crossRunWallThickness
      dsimp only
      split_ifs with hwts
      · exact h5
      · intro b hb
        rcases List.mem_map.mp hb with ⟨c, hc, rfl⟩
        have := h5 c hc
        split_ifs <;> simp_all
    · exact h5
  intro b hb
  unfold cleanData at hb
  rcases List.mem_map.mp hb with ⟨c, hc, rfl⟩
  have := h6 c hc
  split_ifs <;> simp_all

/-- The normalizer establishes `corrected_distance = distance`. -/
theorem normalizeAnomalies_corrected_eq (raw : List RawAnomaly) (runIndex : ℕ) :
    ∀ a ∈ normalizeAnomalies raw runIndex, a.corrected_distance = a.distance := by
  intro a ha
  rw [normalizeAnomalies, sortByKey_mem] at ha
  rcases List.mem_map.mp ha with ⟨r, _, rfl⟩
  rfl

/-- Concrete evaluation: the plain raw row passes through the normalizer
and all seven cleaning passes unchanged. -/
theorem cleanData_rawRowPlain_eval :
    cleanData (normalizeAnomalies [rawRowPlain] 0) [] = [cleanedRowPlain] := by
  have hnorm : normalizeAnomalies [rawRowPlain] 0 = [cleanedRowPlain] := by
    norm_num [normalizeAnomalies, normalizeRow, sortByKey, insertByKey, parseClockPosition,
      clampQ, rawRowPlain, cleanedRowPlain, baseAnomaly, isReferenceType]
  rw [hnorm]
  norm_num [cleanData, removeDuplicates, removeDuplicatesAux, detectAndConvertUnits,
    clampOutliers, clampOutlierRow, interpolateMissing, enforceMonotonicity,
    flagZeroDimensions, listMax, medianQ, sortByKey, insertByKey, List.range_succ,
    cleanedRowPlain, baseAnomaly]

/-! ## Claim C5: the reference run keeps `corrected_distance = distance` -/

/-- Claim C5: for every anomaly of the reference run (index 0) the engine
output has `corrected_distance = raw distance`: the equality established
by the normalizer is preserved by all seven cleaning passes, and the
orchestrator never remaps run 0 (it is the head of `correctedRuns`
regardless of the reference pairs matched for the later runs). -/
theorem run0_corrected_eq_raw (raw : List RawAnomaly) (other rest : List (List Anomaly))
    (matchedFor : ℕ → List MatchedReference) :
    ∀ a ∈ (pipelineCorrectedRuns (cleanData (normalizeAnomalies raw 0) other :: rest)
        matchedFor).headD [],
      a.corrected_distance = a.distance := by
  intro a ha
  rw [pipelineCorrectedRuns] at ha
  simp only [List.headD_cons] at ha
  exact cleanData_preserves_corrected_eq _ other (normalizeAnomalies_corrected_eq raw 0) a ha

/-- Witness for C5 on the singleton plain raw row. -/
theorem run0_corrected_eq_raw_witness :
    cleanedRowPlain.corrected_distance = cleanedRowPlain.distance :=
  run0_corrected_eq_raw [rawRowPlain] [] [] (fun _ => []) cleanedRowPlain
    (by rw [pipelineCorrectedRuns]
        simp only [List.headD_cons]
        rw [cleanData_rawRowPlain_eval]
        simp)

/-! ## Claim C10: the interpolation flag is unreachable -/

theorem detectAndConvertUnits_pairwise (d : List Anomaly)
    (h : d.Pairwise (fun a b => a.distance ≤ b.distance)) :
    (detectAndConvertUnits d).Pairwise (fun a b => a.distance ≤ b.distance) := by
  have hk : (0 : ℚ) ≤ metersToFeet := by norm_num [metersToFeet]
  unfold detectAndConvertUnits
  dsimp only
  split_ifs <;> (try simp only [List.pairwise_map]) <;>
    exact h.imp (fun hab => by
      first
      | exact hab
      | (simp only [convertDistanceRow, convertDimensionsRow, convertWtRow]
         first
         | exact hab
         | exact mul_le_mul_of_nonneg_right hab hk))

theorem clampOutliers_pairwise (d : List Anomaly)
    (h : d.Pairwise (fun a b => a.distance ≤ b.distance)) :
    (clampOutliers d).Pairwise (fun a b => a.distance ≤ b.distance) := by
  rw [clampOutliers, List.pairwise_map]
  exact h.imp (fun hab => hab)

theorem interpolateMissing_no_interp_flag (d : List Anomaly)
    (hsorted : d.Pairwise (fun a b => a.distance ≤ b.distance))
    (hflags : ∀ a ∈ d, CleaningFlag.distance_interpolated ∉ a.cleaning_flags) :
    ∀ b ∈ interpolateMissing d, CleaningFlag.distance_interpolated ∉ b.cleaning_flags := by
  intro b hb
  rcases List.mem_map.mp hb with ⟨idx, hidx, rfl⟩
  have hlt := List.mem_range.mp hidx
  have hmem := getD_mem d idx default hlt
  have hfl := hflags _ hmem
  dsimp only
  split_ifs with h1 h2
  · exfalso
    obtain ⟨hd0, hpos, hlt2, hprev, hnext⟩ := h1
    have hle : (d.getD (idx - 1) default).distance ≤ (d.getD idx default).distance :=
      pairwise_getD hsorted (idx - 1) idx default (by omega) hlt
    rw [hd0] at hle
    linarith
  · simpa using hfl
  · exact hfl

theorem clampOutlierRow_no_interp (a : Anomaly)
    (h : CleaningFlag.distance_interpolated ∉ a.cleaning_flags) :
    CleaningFlag.distance_interpolated ∉ (clampOutlierRow a).cleaning_flags := by
  unfold clampOutlierRow
  dsimp only
  intro hx
  simp only [List.mem_append] at hx
  rcases hx with (((((hx | hx) | hx) | hx) | hx) | hx) | hx <;>
    first
    | exact h hx
    | (split_ifs at hx <;> simp_all)

theorem enforceMonotonicity_no_interp (d : List Anomaly)
    (h : ∀ a ∈ d, CleaningFlag.distance_interpolated ∉ a.cleaning_flags) :
    ∀ b ∈ enforceMonotonicity d, CleaningFlag.distance_interpolated ∉ b.cleaning_flags := by
  intro b hb
  rcases List.mem_map.mp hb with ⟨idx, hidx, rfl⟩
  have := h _ (getD_mem _ idx default (List.mem_range.mp hidx))
  dsimp only
  split_ifs <;> simp_all

theorem crossRunWallThickness_no_interp (d : List Anomaly) (otherRuns : List (List Anomaly))
    (h : ∀ a ∈ d, CleaningFlag.distance_interpolated ∉ a.cleaning_flags) :
    ∀ b ∈ crossRunWallThickness d otherRuns,
      CleaningFlag.distance_interpolated ∉ b.cleaning_flags := by
  unfold crossRunWallThickness
  dsimp only
  split_ifs with hwts
  · exact h
  · intro b hb
    rcases List.mem_map.mp hb with ⟨c, hc, rfl⟩
    have := h c hc
    split_ifs <;> simp_all

theorem flagZeroDimensions_no_interp (d : List Anomaly)
    (h : ∀ a ∈ d, CleaningFlag.distance_interpolated ∉ a.cleaning_flags) :
    ∀ b ∈ flagZeroDimensions d, CleaningFlag.distance_interpolated ∉ b.cleaning_flags := by
  intro b hb
  rcases List.mem_map.mp hb with ⟨c, hc, rfl⟩
  have := h c hc
  split_ifs <;> simp_all

theorem detectAndConvertUnits_no_interp (d : List Anomaly)
    (h : ∀ a ∈ d, CleaningFlag.distance_interpolated ∉ a.cleaning_flags) :
    ∀ b ∈ detectAndConvertUnits d,
      CleaningFlag.distance_interpolated ∉ b.cleaning_flags := by
  unfold detectAndConvertUnits
  dsimp only
  split_ifs <;> intro b hb <;>
    repeat'
      first
      | exact h b hb
      | (rcases List.mem_map.mp hb with ⟨c, hc, rfl⟩
         first
         | (rcases List.mem_map.mp hc with ⟨e, he, rfl⟩
            first
            | (rcases List.mem_map.mp he with ⟨g, hg, rfl⟩
               simp [convertDistanceRow, convertDimensionsRow, convertWtRow, h g hg])
            | simp [convertDistanceRow, convertDimensionsRow, convertWtRow, h e he])
         | simp [convertDistanceRow, convertDimensionsRow, convertWtRow, h c hc])

/-- Claim C10: for every raw input, normalizing (which sorts ascending by
distance) and then cleaning never attaches the `distance_interpolated`
flag: the interpolation guard (zero distance with a strictly positive
predecessor) is unsatisfiable because the passes before interpolation
preserve the ascending distance order. -/
theorem cleanData_never_interpolates (raw : List RawAnomaly) (runIndex : ℕ)
    (otherRuns : List (List Anomaly)) :
    ∀ a ∈ cleanData (normalizeAnomalies raw runIndex) otherRuns,
      CleaningFlag.distance_interpolated ∉ a.cleaning_flags := by
  have hfl0 : ∀ a ∈ normalizeAnomalies raw runIndex,
      CleaningFlag.distance_interpolated ∉ a.cleaning_flags := by
    intro a ha
    rw [normalizeAnomalies, sortByKey_mem] at ha
    rcases List.mem_map.mp ha with ⟨r, _, rfl⟩
    simp [normalizeRow]
  have hfl1 : ∀ a ∈ removeDuplicates (normalizeAnomalies raw runIndex),
      CleaningFlag.distance_interpolated ∉ a.cleaning_flags :=
    fun a ha => hfl0 a ((removeDuplicates_sublist _).mem ha)
  have hsort1 : (removeDuplicates (normalizeAnomalies raw runIndex)).Pairwise
      (fun a b => a.distance ≤ b.distance) :=
    (sortByKey_sorted _ _).sublist (removeDuplicates_sublist _)
  have hfl2 := detectAndConvertUnits_no_interp _ hfl1
  have hsort2 := detectAndConvertUnits_pairwise _ hsort1
  have hfl3 : ∀ a ∈ clampOutliers (detectAndConvertUnits (removeDuplicates
      (normalizeAnomalies raw runIndex))),
      CleaningFlag.distance_interpolated ∉ a.cleaning_flags := by
    intro b hb
    rcases List.mem_map.mp hb with ⟨c, hc, rfl⟩
    exact clampOutlierRow_no_interp c (hfl2 c hc)
  have hsort3 := clampOutliers_pairwise _ hsort2
  have hfl4 := interpolateMissing_no_interp_flag _ hsort3 hfl3
  have hfl5 := enforceMonotonicity_no_interp _ hfl4
  intro b hb
  rw [cleanData] at hb
  rcases List.mem_map.mp hb with ⟨c, hc, rfl⟩
  have hc6 : CleaningFlag.distance_interpolated ∉ c.cleaning_flags := by
    by_cases hother : otherRuns.length ≠ 0
    · rw [if_pos hother] at hc
      exact crossRunWallThickness_no_interp _ otherRuns hfl5 c hc
    · rw [if_neg hother] at hc
      exact hfl5 c hc
  split_ifs <;> simp_all

/-- Witness for C10 on the singleton plain raw row. -/
theorem cleanData_never_interpolates_witness :
    CleaningFlag.distance_interpolated ∉ cleanedRowPlain.cleaning_flags :=
  cleanData_never_interpolates [rawRowPlain] 0 [] cleanedRowPlain
    (by rw [cleanData_rawRowPlain_eval]; simp)

/-! ## Claim C7: similarity components and the negative-clock bug -/

/-- Claim C7 is violated by the code: `parseClockPosition` uses the JS
remainder, so the raw clock value -3 (which the spec's `hours mod 12`
reads as 9:00 = 270 degrees) normalizes to -90 "degrees", and the clock
similarity of that anomaly against one at 350 degrees is 13/9 > 1,
outside [0,1].  This evaluates the code at the failing input. -/
theorem clockSimilarity_out_of_range_eval :
    ((normalizeAnomalies [rawRowClockNeg, rawRowClock350] 0).getD 0
        default).clock_degrees = -90 ∧
    ((normalizeAnomalies [rawRowClockNeg, rawRowClock350] 0).getD 1
        default).clock_degrees = 350 ∧
    (calculateSimilarity
        ((normalizeAnomalies [rawRowClockNeg, rawRowClock350] 0).getD 0 default)
        ((normalizeAnomalies [rawRowClockNeg, rawRowClock350] 0).getD 1 default)).clock =
      (13 : ℝ) / 9 ∧
    ¬((calculateSimilarity
        ((normalizeAnomalies [rawRowClockNeg, rawRowClock350] 0).getD 0 default)
        ((normalizeAnomalies [rawRowClockNeg, rawRowClock350] 0).getD 1 default)).clock ≤ 1) := by
  have hclockA : parseClockPosition (RawClock.num (-3)) = -90 := by
    norm_num [parseClockPosition, jsRem, ratTrunc]
  have hclockB : parseClockPosition (RawClock.num 350) = 350 := by
    norm_num [parseClockPosition, jsRem, ratTrunc]
  have hnorm : normalizeAnomalies [rawRowClockNeg, rawRowClock350] 0 =
      [normalizeRow 0 rawRowClockNeg, normalizeRow 0 rawRowClock350] := by
    rw [normalizeAnomalies]
    norm_num [sortByKey, insertByKey, normalizeRow, rawRowClockNeg, rawRowClock350,
      rawRowPlain]
  rw [hnorm]
  have hA : (([normalizeRow 0 rawRowClockNeg, normalizeRow 0 rawRowClock350] :
      List Anomaly).getD 0 default).clock_degrees = -90 := by
    simp [normalizeRow, rawRowClockNeg, rawRowPlain, hclockA]
  have hB : (([normalizeRow 0 rawRowClockNeg, normalizeRow 0 rawRowClock350] :
      List Anomaly).getD 1 default).clock_degrees = 350 := by
    simp [normalizeRow, rawRowClock350, rawRowPlain, hclockB]
  refine ⟨hA, hB, ?_, ?_⟩
  · rw [calculateSimilarity]
    dsimp only
    rw [hA, hB]
    norm_num [clockSimilarity]
  · rw [calculateSimilarity]
    dsimp only
    rw [hA, hB]
    norm_num [clockSimilarity]

/-! ## Claim C9: runs beyond the first three are ignored -/

theorem getD_take {α : Type} (l : List α) (n i : ℕ) (d : α) (h : i < n) :
    (l.take n).getD i d = l.getD i d := by
  rw [List.getD_eq_getElem?_getD, List.getD_eq_getElem?_getD, List.getElem?_take,
    if_pos h]

/-- Claim C9 (amended): the matcher only processes runs 0, 1 and 2:
`matchAcrossRuns` on any list of runs equals `matchAcrossRuns` on its
first three runs, so no pairwise matching is performed for pairs
(2,3), (3,4), … and anomalies of runs with index ≥ 3 never enter
chains. -/
theorem matchAcrossRuns_take3 (runs : List (List Anomaly)) (years : List ℚ) :
    matchAcrossRuns (runs.take 3) years = matchAcrossRuns runs years := by
  unfold matchAcrossRuns
  simp only [List.length_take,
    getD_take runs 3 0 [] (by omega), getD_take runs 3 1 [] (by omega),
    getD_take runs 3 2 [] (by omega),
    show (min 3 runs.length < 2) = (runs.length < 2) by rw [eq_iff_iff]; omega,
    show (3 ≤ min 3 runs.length) = (3 ≤ runs.length) by rw [eq_iff_iff]; omega,
    show (2 < min 3 runs.length) = (2 < runs.length) by rw [eq_iff_iff]; omega,
    show (decide (2 < min 3 runs.length)) = (decide (2 < runs.length)) by
      rw [decide_eq_decide]; omega]

/-- Claim C9 counterexample: on a four-run input whose fourth run holds a
non-reference anomaly, the engine produces no chain at all — no pairwise
match for the pair (2,3) exists and the run-3 anomaly never enters a
chain. -/
theorem fourth_run_ignored_counterexample :
    matchAcrossRuns [[], [], [], [baseAnomaly]] [2010, 2015, 2020, 2025] = [] ∧
    (([[], [], [], [baseAnomaly]] : List (List Anomaly)).getD 3 []).filter
      (fun a => !a.is_reference_point) ≠ [] := by
  constructor
  · norm_num [matchAcrossRuns, matchAnomalies, matchCandidates, matchAssignment,
      extractStep, nonRefEnum, buildCostMatrix, hungarianAlgorithm, alistGet, alistSet]
  · simp [baseAnomaly]

/-! ## Generic fold and list lemmas for the matcher -/

theorem foldl_preserve {α σ : Type} (P : σ → Prop) (f : σ → α → σ) (l : List α)
    (h : ∀ s a, a ∈ l → P s → P (f s a)) (s : σ) (hs : P s) : P (l.foldl f s) := by
  induction l generalizing s with
  | nil => simpa using hs
  | cons x xs ih =>
      rw [List.foldl_cons]
      exact ih (fun s a ha hp => h s a (List.mem_cons_of_mem x ha) hp) _
        (h s x (List.mem_cons_self x xs) hs)

theorem getD_set {α : Type} (l : List α) (i : ℕ) (x : α) (i' : ℕ) (d : α) :
    (l.set i x).getD i' d = if i = i' ∧ i < l.length then x else l.getD i' d := by
  rw [List.getD_eq_getElem?_getD, List.getD_eq_getElem?_getD, List.getElem?_set]
  by_cases h1 : i = i'
  · subst h1
    by_cases h2 : i < l.length
    · simp [h2]
    · simp [h2, List.getElem?_eq_none (le_of_not_lt h2)]
  · simp [h1]

theorem greedyBestCol_not_used (row : List ℝ) (used : List ℕ) (m j : ℕ)
    (h : greedyBestCol row used m = some j) : j ∉ used := by
  unfold greedyBestCol at h
  rcases Option.map_eq_some'.mp h with ⟨p, hp, hpe⟩
  have hinv : ∀ q : ℕ × ℝ, (List.range m).foldl (fun best jj =>
      if jj ∈ used then best
      else
        match best with
        | none => some (jj, row.getD jj 0)
        | some (bj, bc) =>
            if row.getD jj 0 < bc then some (jj, row.getD jj 0) else some (bj, bc))
      none = some q → q.1 ∉ used := by
    refine foldl_preserve (fun o => ∀ q : ℕ × ℝ, o = some q → q.1 ∉ used) _ (List.range m)
      ?_ none (by simp)
    intro s a _ hP q hq
    by_cases ha : a ∈ used
    · rw [if_pos ha] at hq
      exact hP q hq
    · rw [if_neg ha] at hq
      cases s with
      | none =>
          simp only [Option.some.injEq] at hq
          rw [← hq]
          exact ha
      | some p2 =>
          by_cases hlt : row.getD a 0 < p2.2
          · simp only [hlt, if_true] at hq
            simp only [Option.some.injEq] at hq
            rw [← hq]
            exact ha
          · simp only [hlt, if_false] at hq
            simp only [Option.some.injEq] at hq
            rw [← hq]
            exact hP ⟨p2.1, p2.2⟩ rfl
  have := hinv p hp
  rw [← hpe]
  exact this

theorem hungarianStep_inv (matrix2 : List (List ℝ)) (m n : ℕ)
    (st : List ℤ × List ℕ) (i : ℕ) (h : hungarianInv n st) :
    hungarianInv n (hungarianStep matrix2 m st i) := by
  obtain ⟨hlen, hmem, hinj⟩ := h
  unfold hungarianStep
  by_cases h1 : st.1.getD i (-1) ≠ -1
  · rw [if_pos h1]
    exact ⟨hlen, hmem, hinj⟩
  · rw [if_neg h1]
    push_neg at h1
    cases hg : greedyBestCol (matrix2.getD i []) st.2 m with
    | none => exact ⟨hlen, hmem, hinj⟩
    | some bestJ =>
        have hnotused := greedyBestCol_not_used _ _ _ _ hg
        refine ⟨by rw [List.length_set]; exact hlen, ?_, ?_⟩
        · intro i' hne
          rw [getD_set] at hne ⊢
          by_cases hc : i = i' ∧ i < st.1.length
          · rw [if_pos hc] at hne ⊢
            constructor
            · exact Int.ofNat_nonneg bestJ
            · simp
          · rw [if_neg hc] at hne ⊢
            rcases hmem i' hne with ⟨h0, hm0⟩
            exact ⟨h0, List.mem_append_left _ hm0⟩
        · intro i1 i2 hne12 hne1
          rw [getD_set] at hne1
          rw [getD_set, getD_set]
          by_cases hc1 : i = i1 ∧ i < st.1.length <;>
            by_cases hc2 : i = i2 ∧ i < st.1.length
          · exact absurd (hc1.1.symm.trans hc2.1) hne12
          · rw [if_pos hc1, if_neg hc2]
            by_cases hold : st.1.getD i2 (-1) = -1
            · rw [hold]
              omega
            · rcases hmem i2 hold with ⟨h0, hm0⟩
              intro hcontra
              apply hnotused
              have : ((bestJ : ℤ)).toNat = bestJ := Int.toNat_ofNat bestJ
              rw [← this, hcontra]
              exact hm0
          · rw [if_neg hc1, if_pos hc2]
            rw [if_neg hc1] at hne1
            rcases hmem i1 hne1 with ⟨h0, hm0⟩
            intro hcontra
            apply hnotused
            rw [← Int.toNat_ofNat bestJ, ← hcontra]
            exact hm0
          · rw [if_neg hc1, if_neg hc2]
            rw [if_neg hc1] at hne1
            exact hinj i1 i2 hne12 hne1

theorem hungarianPasses_inv (matrix2 : List (List ℝ)) (n m : ℕ) :
    hungarianInv n (hungarianPasses matrix2 n m) := by
  have hinit : hungarianInv n (((List.range n).map (fun _ => (-1 : ℤ))), ([] : List ℕ)) := by
    have hgetD : ∀ i, (((List.range n).map (fun _ => (-1 : ℤ)))).getD i (-1) = -1 := by
      intro i
      by_cases hi : i < n
      · rw [rangeMap_getD _ _ _ _ hi]
      · rw [List.getD_eq_default]
        rw [List.length_map, List.length_range]
        omega
    refine ⟨by simp, ?_, ?_⟩
    · intro i hne
      exact absurd (hgetD i) hne
    · intro i1 i2 _ hne1
      exact absurd (hgetD i1) hne1
  exact foldl_preserve (hungarianInv n)
    (fun st _pass => (List.range n).foldl (hungarianStep matrix2 m) st) (List.range 3)
    (fun st _pass _ hst =>
      foldl_preserve (hungarianInv n) (hungarianStep matrix2 m) (List.range n)
        (fun st2 i _ hst2 => hungarianStep_inv _ _ _ st2 i hst2) st hst)
    _ hinit

/-- Structural facts about the greedy assignment: it is empty, or it has
one entry per cost-matrix row and assigns no column to two rows. -/
theorem hungarianAlgorithm_spec (c : List (List ℝ)) :
    hungarianAlgorithm c = [] ∨
    ((hungarianAlgorithm c).length = c.length ∧
      ∀ i1 i2 : ℕ, i1 ≠ i2 → (hungarianAlgorithm c).getD i1 (-1) ≠ -1 →
        (hungarianAlgorithm c).getD i1 (-1) ≠ (hungarianAlgorithm c).getD i2 (-1)) := by
  unfold hungarianAlgorithm
  dsimp only
  split_ifs with h0
  · exact Or.inl rfl
  · right
    exact ⟨(hungarianPasses_inv _ c.length _).1, (hungarianPasses_inv _ c.length _).2.2⟩

/-! ## Extraction-loop characterization -/

theorem extractStep_eq (cands : List Candidate) (assignment : List ℤ)
    (r1 r2 : List (ℕ × Anomaly)) (st : List PairMatch × List ℕ × List ℕ) (i : ℕ) :
    extractStep cands assignment r1 r2 st i =
      if acceptIdx cands assignment r2 i then
        (st.1 ++ [pairAt cands assignment r1 r2 i], st.2.1 ++ [i],
          st.2.2 ++ [colAt assignment i])
      else st := by
  unfold extractStep acceptIdx pairAt colAt
  dsimp only
  by_cases hj : assignment.getD i (-1) < 0 ∨ (r2.length : ℤ) ≤ assignment.getD i (-1)
  · rw [if_pos hj, if_pos hj]
    simp
  · rw [if_neg hj, if_neg hj]
    cases hfind : cands.find? (fun c => decide (c.row = i) &&
        decide (c.col = (assignment.getD i (-1)).toNat)) with
    | none => simp
    | some cand =>
        dsimp only
        by_cases hs : (2 / 5 : ℝ) ≤ cand.score
        · simp [hs]
        · simp [hs]

theorem extract_foldl_spec (cands : List Candidate) (assignment : List ℤ)
    (r1 r2 : List (ℕ × Anomaly)) (L : List ℕ) (st : List PairMatch × List ℕ × List ℕ) :
    L.foldl (extractStep cands assignment r1 r2) st =
      (st.1 ++ (L.filter (acceptIdx cands assignment r2)).map
          (pairAt cands assignment r1 r2),
        st.2.1 ++ L.filter (acceptIdx cands assignment r2),
        st.2.2 ++ (L.filter (acceptIdx cands assignment r2)).map (colAt assignment)) := by
  induction L generalizing st with
  | nil => simp
  | cons x xs ih =>
      rw [List.foldl_cons, extractStep_eq, List.filter_cons]
      by_cases hx : acceptIdx cands assignment r2 x
      · rw [if_pos hx, if_pos hx, ih]
        simp
      · rw [if_neg hx]
        simp only [hx]
        rw [ih]
        simp

/-- `matchAnomalies` in closed form via the accepted-row list. -/
theorem matchAnomalies_eq (run1 run2 : List Anomaly) :
    matchAnomalies run1 run2 =
      { pairs := (acceptedRows run1 run2).map
          (pairAt (matchCandidates (nonRefEnum run1) (nonRefEnum run2))
            (matchAssignment (nonRefEnum run1) (nonRefEnum run2))
            (nonRefEnum run1) (nonRefEnum run2))
        newAnomalies := (List.range (nonRefEnum run2).length).filterMap (fun j =>
          if j ∈ (acceptedRows run1 run2).map
              (colAt (matchAssignment (nonRefEnum run1) (nonRefEnum run2))) then none
          else some ((nonRefEnum run2).getD j default).1)
        missingAnomalies := (List.range (nonRefEnum run1).length).filterMap (fun i =>
          if i ∈ acceptedRows run1 run2 then none
          else some ((nonRefEnum run1).getD i default).1) } := by
  unfold matchAnomalies acceptedRows
  dsimp only
  rw [extract_foldl_spec]
  simp

/-! ## Enumeration and index lemmas -/

theorem map_getD_range {α : Type} (l : List α) (d : α) :
    (List.range l.length).map (fun i => l.getD i d) = l := by
  induction l with
  | nil => simp
  | cons x xs ih =>
      rw [List.length_cons, List.range_succ_eq_map, List.map_cons, List.map_map]
      simp only [List.getD_cons_zero, Function.comp_def, List.getD_cons_succ]
      rw [ih]

theorem mem_enum_getD {α : Type} (l : List α) (d : α) (p : ℕ × α) (h : p ∈ l.enum) :
    l.getD p.1 d = p.2 := by
  rw [List.mem_enum_iff_getElem?] at h
  rw [List.getD_eq_getElem?_getD, h]
  rfl

theorem enumFrom_filter_map_snd {α : Type} (q : α → Bool) (l : List α) :
    ∀ k : ℕ, ((List.enumFrom k l).filter (fun p => q p.2)).map Prod.snd = l.filter q := by
  induction l with
  | nil => intro k; simp
  | cons x xs ih =>
      intro k
      rw [List.enumFrom_cons, List.filter_cons, List.filter_cons]
      by_cases hq : q x = true
      · rw [if_pos hq, if_pos hq, List.map_cons, ih (k + 1)]
      · rw [if_neg hq, if_neg hq, ih (k + 1)]

theorem nonRefEnum_map_snd (run : List Anomaly) :
    (nonRefEnum run).map Prod.snd = run.filter (fun a => !a.is_reference_point) := by
  have henum : run.enum = List.enumFrom 0 run := rfl
  unfold nonRefEnum
  rw [henum]
  exact enumFrom_filter_map_snd (fun a => !a.is_reference_point) run 0

theorem nonRefEnum_getD_fst (run : List Anomaly) (i : ℕ) (h : i < (nonRefEnum run).length) :
    run.getD ((nonRefEnum run).getD i default).1 default =
      ((nonRefEnum run).getD i default).2 := by
  have hmem : (nonRefEnum run).getD i default ∈ nonRefEnum run := getD_mem _ _ _ h
  have hmem2 : (nonRefEnum run).getD i default ∈ run.enum :=
    (List.filter_sublist run.enum).mem hmem
  exact mem_enum_getD run default _ hmem2

theorem nonRefEnum_fst_nodup (run : List Anomaly) :
    ((nonRefEnum run).map Prod.fst).Nodup := by
  have hsub : ((nonRefEnum run).map Prod.fst).Sublist (run.enum.map Prod.fst) :=
    List.Sublist.map Prod.fst (List.filter_sublist run.enum)
  rw [List.enum_map_fst] at hsub
  exact (List.nodup_range run.length).sublist hsub

theorem filter_mem_perm (S : List ℕ) (k : ℕ) (hS : S.Nodup) (hb : ∀ j ∈ S, j < k) :
    ((List.range k).filter (fun j => decide (j ∈ S))).Perm S := by
  refine (List.perm_ext_iff_of_nodup ((List.nodup_range k).filter _) hS).mpr ?_
  intro a
  rw [List.mem_filter, List.mem_range]
  constructor
  · rintro ⟨_, ha⟩
    exact of_decide_eq_true ha
  · intro ha
    exact ⟨hb a ha, decide_eq_true ha⟩

theorem filterMap_if {α β : Type} (P : α → Prop) [DecidablePred P] (f : α → β)
    (l : List α) :
    l.filterMap (fun i => if P i then none else some (f i)) =
      (l.filter (fun i => !(decide (P i)))).map f := by
  induction l with
  | nil => simp
  | cons x xs ih =>
      by_cases hx : P x
      · rw [List.filterMap_cons, List.filter_cons, if_pos hx]
        have h2 : (!decide (P x)) = false := by simp [hx]
        rw [h2]
        simpa using ih
      · rw [List.filterMap_cons, List.filter_cons, if_neg hx]
        have h2 : (!decide (P x)) = true := by simp [hx]
        rw [h2]
        dsimp only
        rw [if_pos rfl, List.map_cons, List.cons_inj_right]
        exact ih

/-! ## Matcher acceptance facts -/

theorem buildCostMatrix_length (sims : List CandidateScore) (nRows nCols : ℕ) :
    (buildCostMatrix sims nRows nCols).length = nRows := by
  unfold buildCostMatrix
  dsimp only
  refine foldl_preserve (fun m : List (List ℝ) => m.length = nRows) _ sims ?_ _ (by simp)
  intro m c _ hm
  rw [List.length_set]
  exact hm

theorem matchAssignment_cases (r1 r2 : List (ℕ × Anomaly)) :
    matchAssignment r1 r2 = [] ∨ (matchAssignment r1 r2).length = r1.length := by
  unfold matchAssignment
  rcases hungarianAlgorithm_spec (buildCostMatrix
      ((matchCandidates r1 r2).map (fun c => ⟨c.row, c.col, c.score⟩))
      r1.length r2.length) with h | h
  · exact Or.inl h
  · right
    rw [h.1, buildCostMatrix_length]

theorem matchAssignment_inj (r1 r2 : List (ℕ × Anomaly)) (i1 i2 : ℕ) (hne : i1 ≠ i2)
    (h1 : (matchAssignment r1 r2).getD i1 (-1) ≠ -1) :
    (matchAssignment r1 r2).getD i1 (-1) ≠ (matchAssignment r1 r2).getD i2 (-1) := by
  unfold matchAssignment at h1 ⊢
  rcases hungarianAlgorithm_spec (buildCostMatrix
      ((matchCandidates r1 r2).map (fun c => ⟨c.row, c.col, c.score⟩))
      r1.length r2.length) with h | h
  · rw [h] at h1
    simp at h1
  · exact h.2 i1 i2 hne h1

theorem acceptIdx_true (cands : List Candidate) (assignment : List ℤ)
    (r2 : List (ℕ × Anomaly)) (i : ℕ) (h : acceptIdx cands assignment r2 i = true) :
    assignment.getD i (-1) ≠ -1 ∧ 0 ≤ assignment.getD i (-1) ∧
      colAt assignment i < r2.length ∧
      ∃ cand, cands.find? (fun c => decide (c.row = i) &&
          decide (c.col = colAt assignment i)) = some cand ∧ (2 / 5 : ℝ) ≤ cand.score := by
  unfold acceptIdx at h
  dsimp only at h
  by_cases hj : assignment.getD i (-1) < 0 ∨ (r2.length : ℤ) ≤ assignment.getD i (-1)
  · rw [if_pos hj] at h
    simp at h
  · rw [if_neg hj] at h
    push_neg at hj
    cases hfind : cands.find? (fun c => decide (c.row = i) &&
        decide (c.col = (assignment.getD i (-1)).toNat)) with
    | none =>
        rw [hfind] at h
        simp at h
    | some cand =>
        rw [hfind] at h
        simp only [decide_eq_true_eq] at h
        refine ⟨by omega, hj.1, ?_, cand, hfind, h⟩
        unfold colAt
        omega

theorem matchCandidates_score_total (r1 r2 : List (ℕ × Anomaly)) :
    ∀ c ∈ matchCandidates r1 r2, c.score = c.breakdown.total := by
  intro c hc
  unfold matchCandidates at hc
  rcases List.mem_flatMap.mp hc with ⟨i, _, hc2⟩
  rcases List.mem_filterMap.mp hc2 with ⟨j, _, heq⟩
  dsimp only at heq
  split_ifs at heq with h1 h2
  · rcases Option.some.inj heq with rfl
    rfl

theorem pairAt_total_ge (cands : List Candidate) (assignment : List ℤ)
    (r1 r2 : List (ℕ × Anomaly)) (i : ℕ)
    (hsc : ∀ c ∈ cands, c.score = c.breakdown.total)
    (h : acceptIdx cands assignment r2 i = true) :
    (2 / 5 : ℝ) ≤ (pairAt cands assignment r1 r2 i).similarity.total := by
  obtain ⟨_, _, _, cand, hfind, hge⟩ := acceptIdx_true cands assignment r2 i h
  have hmem := List.mem_of_find?_eq_some hfind
  unfold pairAt
  rw [hfind]
  show (2 / 5 : ℝ) ≤ cand.breakdown.total
  rw [← hsc cand hmem]
  exact hge

/-! ## Partition lemmas for `matchAnomalies` -/

theorem map_getD_range_comp {α β : Type} (l : List α) (d : α) (f : α → β) :
    (List.range l.length).map (fun i => f (l.getD i d)) = l.map f := by
  have : (fun i => f (l.getD i d)) = f ∘ (fun i => l.getD i d) := rfl
  rw [this, ← List.map_map, map_getD_range]

theorem nonRefEnum_fst_getD_inj (run : List Anomaly) (i1 i2 : ℕ)
    (h1 : i1 < (nonRefEnum run).length) (h2 : i2 < (nonRefEnum run).length)
    (heq : ((nonRefEnum run).getD i1 default).1 = ((nonRefEnum run).getD i2 default).1) :
    i1 = i2 := by
  have hnd := nonRefEnum_fst_nodup run
  rw [List.getD_eq_getElem _ _ h1, List.getD_eq_getElem _ _ h2] at heq
  have e1 : ((nonRefEnum run).map Prod.fst).get ⟨i1, by simpa using h1⟩ =
      ((nonRefEnum run).map Prod.fst).get ⟨i2, by simpa using h2⟩ := by
    simp only [List.get_eq_getElem, List.getElem_map]
    exact heq
  have := List.nodup_iff_injective_get.mp hnd e1
  simpa using this

theorem range_map_value (run : List Anomaly) :
    (List.range (nonRefEnum run).length).map
      (fun i => run.getD ((nonRefEnum run).getD i default).1 default) =
      run.filter (fun a => !a.is_reference_point) := by
  have h1 : ∀ i ∈ List.range (nonRefEnum run).length,
      run.getD ((nonRefEnum run).getD i default).1 default =
        ((nonRefEnum run).getD i default).2 :=
    fun i hi => nonRefEnum_getD_fst run i (List.mem_range.mp hi)
  rw [List.map_congr_left h1, map_getD_range_comp, nonRefEnum_map_snd]

theorem accepted_complement_perm (acc : List ℕ) (k : ℕ) (accB : ℕ → Bool)
    (hacc : acc = (List.range k).filter accB) :
    (acc ++ (List.range k).filter (fun i => !(decide (i ∈ acc)))).Perm (List.range k) := by
  have hcong : (List.range k).filter (fun i => !(decide (i ∈ acc))) =
      (List.range k).filter (fun i => !accB i) := by
    apply List.filter_congr
    intro a ha
    subst hacc
    by_cases hb : accB a <;> simp [List.mem_filter, ha, hb]
  rw [hcong, hacc]
  exact List.filter_append_perm accB (List.range k)

theorem mem_complement_perm (S : List ℕ) (k : ℕ) (hS : S.Nodup) (hb : ∀ j ∈ S, j < k) :
    (S ++ (List.range k).filter (fun j => !(decide (j ∈ S)))).Perm (List.range k) := by
  have h1 := filter_mem_perm S k hS hb
  exact ((h1.symm.append (List.Perm.refl _)).trans
    (List.filter_append_perm (fun j => decide (j ∈ S)) (List.range k)))

/-- Accepted pairs and missing indices together enumerate every
non-reference anomaly of the first run exactly once. -/
theorem matchAnomalies_run1_values (run1 run2 : List Anomaly) :
    (↑((matchAnomalies run1 run2).pairs.map (fun p => run1.getD p.run1Idx default)) :
        Multiset Anomaly) +
      ↑((matchAnomalies run1 run2).missingAnomalies.map (fun i => run1.getD i default)) =
      ↑(run1.filter (fun a => !a.is_reference_point)) := by
  rw [matchAnomalies_eq]
  dsimp only
  rw [List.map_map,
    filterMap_if (fun i => i ∈ acceptedRows run1 run2)
      (fun i => ((nonRefEnum run1).getD i default).1)
      (List.range (nonRefEnum run1).length),
    List.map_map]
  have hf1 : ((fun p : PairMatch => run1.getD p.run1Idx default) ∘
      pairAt (matchCandidates (nonRefEnum run1) (nonRefEnum run2))
        (matchAssignment (nonRefEnum run1) (nonRefEnum run2))
        (nonRefEnum run1) (nonRefEnum run2)) =
      (fun i => run1.getD ((nonRefEnum run1).getD i default).1 default) := rfl
  have hf2 : ((fun i => run1.getD i default) ∘
      fun i => ((nonRefEnum run1).getD i default).1) =
      (fun i => run1.getD ((nonRefEnum run1).getD i default).1 default) := rfl
  rw [hf1, hf2, Multiset.coe_add, ← List.map_append, Multiset.coe_eq_coe]
  rcases matchAssignment_cases (nonRefEnum run1) (nonRefEnum run2) with hc | hc
  · have hacc : acceptedRows run1 run2 = [] := by
      unfold acceptedRows
      rw [hc]
      simp
    rw [hacc]
    have hfil : (List.range (nonRefEnum run1).length).filter
        (fun i => !(decide (i ∈ ([] : List ℕ)))) = List.range (nonRefEnum run1).length := by
      simp
    rw [List.nil_append, hfil, range_map_value]
  · have hperm := accepted_complement_perm (acceptedRows run1 run2)
      (nonRefEnum run1).length
      (acceptIdx (matchCandidates (nonRefEnum run1) (nonRefEnum run2))
        (matchAssignment (nonRefEnum run1) (nonRefEnum run2)) (nonRefEnum run2))
      (by unfold acceptedRows; rw [hc])
    have hmap := hperm.map
      (fun i => run1.getD ((nonRefEnum run1).getD i default).1 default)
    rw [range_map_value] at hmap
    exact hmap

/-- Accepted pairs and new indices together enumerate every non-reference
anomaly of the second run exactly once. -/
theorem matchAnomalies_run2_values (run1 run2 : List Anomaly) :
    (↑((matchAnomalies run1 run2).pairs.map (fun p => run2.getD p.run2Idx default)) :
        Multiset Anomaly) +
      ↑((matchAnomalies run1 run2).newAnomalies.map (fun j => run2.getD j default)) =
      ↑(run2.filter (fun a => !a.is_reference_point)) := by
  rw [matchAnomalies_eq]
  dsimp only
  rw [List.map_map,
    filterMap_if (fun j => j ∈ (acceptedRows run1 run2).map
        (colAt (matchAssignment (nonRefEnum run1) (nonRefEnum run2))))
      (fun j => ((nonRefEnum run2).getD j default).1)
      (List.range (nonRefEnum run2).length),
    List.map_map]
  have hsplit : (acceptedRows run1 run2).map
      ((fun p : PairMatch => run2.getD p.run2Idx default) ∘
        pairAt (matchCandidates (nonRefEnum run1) (nonRefEnum run2))
          (matchAssignment (nonRefEnum run1) (nonRefEnum run2))
          (nonRefEnum run1) (nonRefEnum run2)) =
      ((acceptedRows run1 run2).map
          (colAt (matchAssignment (nonRefEnum run1) (nonRefEnum run2)))).map
        (fun j => run2.getD ((nonRefEnum run2).getD j default).1 default) := by
    rw [List.map_map]
    rfl
  rw [hsplit]
  have hf3 : ((fun j => run2.getD j default) ∘
      fun j => ((nonRefEnum run2).getD j default).1) =
      (fun j => run2.getD ((nonRefEnum run2).getD j default).1 default) := rfl
  rw [hf3, Multiset.coe_add, ← List.map_append, Multiset.coe_eq_coe]
  have hnodupacc : (acceptedRows run1 run2).Nodup := by
    unfold acceptedRows
    exact (List.nodup_range _).filter _
  have haccmem : ∀ i ∈ acceptedRows run1 run2,
      acceptIdx (matchCandidates (nonRefEnum run1) (nonRefEnum run2))
        (matchAssignment (nonRefEnum run1) (nonRefEnum run2)) (nonRefEnum run2) i =
        true := by
    intro i hi
    unfold acceptedRows at hi
    exact (List.mem_filter.mp hi).2
  have hS_nodup : ((acceptedRows run1 run2).map
      (colAt (matchAssignment (nonRefEnum run1) (nonRefEnum run2)))).Nodup := by
    refine List.Nodup.map_on ?_ hnodupacc
    intro i1 h1 i2 h2 hcol
    by_contra hne
    obtain ⟨hne1, hge1, _, _⟩ := acceptIdx_true _ _ _ i1 (haccmem i1 h1)
    obtain ⟨_, hge2, _, _⟩ := acceptIdx_true _ _ _ i2 (haccmem i2 h2)
    have := matchAssignment_inj (nonRefEnum run1) (nonRefEnum run2) i1 i2 hne hne1
    unfold colAt at hcol
    omega
  have hS_bound : ∀ j ∈ (acceptedRows run1 run2).map
      (colAt (matchAssignment (nonRefEnum run1) (nonRefEnum run2))),
      j < (nonRefEnum run2).length := by
    intro j hj
    rcases List.mem_map.mp hj with ⟨i, hi, rfl⟩
    exact (acceptIdx_true _ _ _ i (haccmem i hi)).2.2.1
  have hperm := mem_complement_perm _ _ hS_nodup hS_bound
  have hmap := hperm.map (fun j => run2.getD ((nonRefEnum run2).getD j default).1 default)
  rw [range_map_value] at hmap
  exact hmap

/-- The accepted pairs' first-run indices are pairwise distinct. -/
theorem matchAnomalies_pairs_run1Idx_nodup (run1 run2 : List Anomaly) :
    ((matchAnomalies run1 run2).pairs.map (fun p => p.run1Idx)).Nodup := by
  rw [matchAnomalies_eq]
  dsimp only
  rw [List.map_map]
  have hnodupacc : (acceptedRows run1 run2).Nodup := by
    unfold acceptedRows
    exact (List.nodup_range _).filter _
  rcases matchAssignment_cases (nonRefEnum run1) (nonRefEnum run2) with hc | hc
  · have hacc : acceptedRows run1 run2 = [] := by
      unfold acceptedRows
      rw [hc]
      simp
    rw [hacc]
    simp
  · refine List.Nodup.map_on ?_ hnodupacc
    intro i1 h1 i2 h2 heq
    have hb1 : i1 < (nonRefEnum run1).length := by
      unfold acceptedRows at h1
      have := (List.mem_filter.mp h1).1
      rw [hc] at this
      exact List.mem_range.mp this
    have hb2 : i2 < (nonRefEnum run1).length := by
      unfold acceptedRows at h2
      have := (List.mem_filter.mp h2).1
      rw [hc] at this
      exact List.mem_range.mp this
    exact nonRefEnum_fst_getD_inj run1 i1 i2 hb1 hb2 heq

/-- Every accepted pair carries similarity total at least 0.40. -/
theorem matchAnomalies_pairs_total_ge (run1 run2 : List Anomaly) :
    ∀ p ∈ (matchAnomalies run1 run2).pairs, (2 / 5 : ℝ) ≤ p.similarity.total := by
  intro p hp
  rw [matchAnomalies_eq] at hp
  dsimp only at hp
  rcases List.mem_map.mp hp with ⟨i, hi, rfl⟩
  have hacc : acceptIdx (matchCandidates (nonRefEnum run1) (nonRefEnum run2))
      (matchAssignment (nonRefEnum run1) (nonRefEnum run2)) (nonRefEnum run2) i = true := by
    unfold acceptedRows at hi
    exact (List.mem_filter.mp hi).2
  exact pairAt_total_ge _ _ _ _ i (matchCandidates_score_total _ _) hacc

/-! ## Chain status/confidence invariant -/

theorem buildMatchObject_confidence (a : List Anomaly) (ri : List ℕ) (conf : ℝ)
    (s : MatchStatus) (sim : SimilarityBreakdown) (y : List ℚ) :
    (buildMatchObject a ri conf s sim y).confidence = conf := rfl

theorem buildMatchObject_status (a : List Anomaly) (ri : List ℕ) (conf : ℝ)
    (s : MatchStatus) (sim : SimilarityBreakdown) (y : List ℚ) :
    (buildMatchObject a ri conf s sim y).match_status = s := rfl

theorem chainOK_zero (a : List Anomaly) (ri : List ℕ) (s : MatchStatus)
    (sim : SimilarityBreakdown) (y : List ℚ) (hs : s = .new ∨ s = .missing) :
    chainOK (buildMatchObject a ri 0 s sim y) := by
  unfold chainOK
  rw [buildMatchObject_status, buildMatchObject_confidence]
  rcases hs with rfl | rfl <;>
    exact ⟨fun h => absurd h (by decide), fun h => absurd h (by decide), fun _ => rfl⟩

theorem chainOK_pair (a : List Anomaly) (ri : List ℕ) (conf : ℝ)
    (sim : SimilarityBreakdown) (y : List ℚ) (hconf : (2 / 5 : ℝ) ≤ conf) :
    chainOK (buildMatchObject a ri conf
      (if conf < 7 / 10 ∧ 2 / 5 ≤ conf then .uncertain else .matched) sim y) := by
  unfold chainOK
  rw [buildMatchObject_status, buildMatchObject_confidence]
  by_cases hcnd : conf < 7 / 10 ∧ 2 / 5 ≤ conf
  · rw [if_pos hcnd]
    exact ⟨fun h => absurd h (by decide), fun _ => ⟨hcnd.2, hcnd.1⟩,
      fun h => by rcases h with h | h <;> exact absurd h (by decide)⟩
  · rw [if_neg hcnd]
    refine ⟨fun _ => ?_, fun h => absurd h (by decide),
      fun h => by rcases h with h | h <;> exact absurd h (by decide)⟩
    rcases not_and_or.mp hcnd with h | h
    · exact le_of_not_lt h
    · exact absurd hconf h

/-- **C3**: every chain emitted by `matchAcrossRuns` satisfies the
status/confidence invariant: `matched` implies confidence ≥ 0.70,
`uncertain` implies 0.40 ≤ confidence < 0.70, and `new`/`missing` chains
carry confidence 0. -/
theorem matchAcrossRuns_status_confidence (runs : List (List Anomaly))
    (years : List ℚ) (c : AnomalyMatch) (hc : c ∈ matchAcrossRuns runs years) :
    (c.match_status = .matched → (7 / 10 : ℝ) ≤ c.confidence) ∧
    (c.match_status = .uncertain →
      ((2 / 5 : ℝ) ≤ c.confidence ∧ c.confidence < 7 / 10)) ∧
    ((c.match_status = .new ∨ c.match_status = .missing) → c.confidence = 0) := by
  suffices h : chainOK c from h
  unfold matchAcrossRuns at hc
  by_cases hlen : runs.length < 2
  · rw [if_pos hlen] at hc
    simp at hc
  · rw [if_neg hlen] at hc
    dsimp only at hc
    rcases Nat.lt_or_ge runs.length 3 with h3 | h3
    · rw [if_neg (by omega : ¬ 3 ≤ runs.length)] at hc
      dsimp only at hc
      rcases List.mem_append.mp hc with h | h
      · refine foldl_preserve
          (fun st : List AnomalyMatch × List (ℕ × ℕ × SimilarityBreakdown) =>
            ∀ x ∈ st.1, chainOK x) _ _ ?_ _ ?_ c h
        · intro st i hi hP x hx
          unfold chainStep2 at hx
          dsimp only at hx
          rcases List.mem_append.mp hx with hx | hx
          · exact hP x hx
          · rw [List.mem_singleton] at hx
            subst hx
            exact chainOK_zero _ _ _ _ _ (Or.inl rfl)
        · refine foldl_preserve
            (fun st : List AnomalyMatch × List (ℕ × ℕ × SimilarityBreakdown) =>
              ∀ x ∈ st.1, chainOK x) _ _ ?_ _ ?_
          · intro st p hp hP x hx
            unfold chainStep1 at hx
            dsimp only at hx
            rcases List.mem_append.mp hx with hx | hx
            · exact hP x hx
            · rw [List.mem_singleton] at hx
              subst hx
              exact chainOK_pair _ _ _ _ _
                (matchAnomalies_pairs_total_ge _ _ p hp)
          · intro x hx
            simp at hx
      · rcases List.mem_map.mp h with ⟨i, _, rfl⟩
        exact chainOK_zero _ _ _ _ _ (Or.inr rfl)
    · rw [if_pos h3] at hc
      dsimp only at hc
      rcases List.mem_append.mp hc with h | h
      · rcases List.mem_append.mp h with h | h
        · rcases List.mem_append.mp h with h | h
          · refine foldl_preserve
              (fun st : List AnomalyMatch × List (ℕ × ℕ × SimilarityBreakdown) =>
                ∀ x ∈ st.1, chainOK x) _ _ ?_ _ ?_ c h
            · intro st i hi hP x hx
              unfold chainStep2 at hx
              dsimp only at hx
              rcases List.mem_append.mp hx with hx | hx
              · exact hP x hx
              · rw [List.mem_singleton] at hx
                subst hx
                exact chainOK_zero _ _ _ _ _ (Or.inl rfl)
            · refine foldl_preserve
                (fun st : List AnomalyMatch × List (ℕ × ℕ × SimilarityBreakdown) =>
                  ∀ x ∈ st.1, chainOK x) _ _ ?_ _ ?_
              · intro st p hp hP x hx
                unfold chainStep1 at hx
                dsimp only at hx
                rcases List.mem_append.mp hx with hx | hx
                · exact hP x hx
                · rw [List.mem_singleton] at hx
                  subst hx
                  exact chainOK_pair _ _ _ _ _
                    (matchAnomalies_pairs_total_ge _ _ p hp)
              · intro x hx
                simp at hx
          · rcases List.mem_map.mp h with ⟨i, _, rfl⟩
            exact chainOK_zero _ _ _ _ _ (Or.inr rfl)
        · split at h
          · rcases List.mem_map.mp h with ⟨e, _, rfl⟩
            exact chainOK_zero _ _ _ _ _ (Or.inl rfl)
          · simp at h
      · split at h
        · rcases List.mem_map.mp h with ⟨j, _, rfl⟩
          exact chainOK_zero _ _ _ _ _ (Or.inl rfl)
        · simp at h

/-- Witness for the chain invariant: on the two-run input
`[[baseAnomaly], []]` the matcher emits exactly one `missing` chain, and
the invariant instantiated there yields confidence 0. -/
theorem matchAcrossRuns_status_confidence_witness :
    (buildMatchObject [baseAnomaly] [0] 0 .missing zeroBreakdown
      [2010, 2015]).confidence = 0 := by
  have heval : matchAcrossRuns [[baseAnomaly], []] [2010, 2015] =
      [buildMatchObject [baseAnomaly] [0] 0 .missing zeroBreakdown [2010, 2015]] := by
    norm_num [matchAcrossRuns, matchAnomalies, matchCandidates, matchAssignment,
      extractStep, nonRefEnum, buildCostMatrix, hungarianAlgorithm, alistGet,
      alistSet, baseAnomaly, List.getD, List.flatMap, List.flatten, List.range_succ,
      List.filterMap]
  have hmem : buildMatchObject [baseAnomaly] [0] (0 : ℝ) .missing zeroBreakdown
      [2010, 2015] ∈ matchAcrossRuns [[baseAnomaly], []] [2010, 2015] := by
    rw [heval]
    exact List.mem_cons_self _ _
  exact (matchAcrossRuns_status_confidence [[baseAnomaly], []] [2010, 2015] _
    hmem).2.2 (Or.inr rfl)

/-! ## Chain accounting for the partition of anomalies into chains -/

theorem buildMatchObject_anomalies (a : List Anomaly) (ri : List ℕ) (conf : ℝ)
    (s : MatchStatus) (sim : SimilarityBreakdown) (y : List ℚ) :
    (buildMatchObject a ri conf s sim y).anomalies = a := rfl

theorem flatten_map_singleton {α β : Type} (l : List α) (f : α → β) :
    (l.map (fun x => [f x])).flatten = l.map f := by
  induction l with
  | nil => rfl
  | cons x xs ih => simp [ih]

theorem foldl_alistSet_fresh {α β : Type} (key : α → ℕ) (val : α → β)
    (ps : List α) :
    ∀ acc : List (ℕ × β), (ps.map key).Nodup →
      (∀ p ∈ ps, ∀ e ∈ acc, e.1 ≠ key p) →
      ps.foldl (fun a p => alistSet a (key p) (val p)) acc =
        acc ++ ps.map (fun p => (key p, val p)) := by
  induction ps with
  | nil =>
      intro acc _ _
      simp
  | cons p ps ih =>
      intro acc hnd hdisj
      rw [List.map_cons, List.nodup_cons] at hnd
      have hany : acc.any (fun e => decide (e.1 = key p)) = false := by
        rw [List.any_eq_false]
        intro e he
        simpa using hdisj p (List.mem_cons_self p ps) e he
      have hset : alistSet acc (key p) (val p) = acc ++ [(key p, val p)] := by
        unfold alistSet
        rw [hany]
        simp
      rw [List.foldl_cons, hset, ih (acc ++ [(key p, val p)]) hnd.2]
      · simp
      · intro q hq e he
        rcases List.mem_append.mp he with he | he
        · exact hdisj q (List.mem_cons_of_mem p hq) e he
        · rw [List.mem_singleton] at he
          subst he
          intro hcontra
          exact hnd.1 (by rw [show key p = key q from hcontra]; exact List.mem_map_of_mem key hq)

theorem alistErase_keys_nodup {β : Type} (l : List (ℕ × β)) (k : ℕ)
    (h : (l.map Prod.fst).Nodup) : ((alistErase l k).map Prod.fst).Nodup := by
  unfold alistErase
  exact List.Nodup.sublist (List.Sublist.map Prod.fst (List.filter_sublist l)) h

theorem alistGet_erase_perm {β : Type} (l : List (ℕ × β)) (k : ℕ) (v : β)
    (hnd : (l.map Prod.fst).Nodup) (hget : alistGet l k = some v) :
    l.Perm ((k, v) :: alistErase l k) := by
  induction l with
  | nil => simp [alistGet] at hget
  | cons e l ih =>
      obtain ⟨e1, e2⟩ := e
      rw [List.map_cons, List.nodup_cons] at hnd
      by_cases hek : e1 = k
      · subst hek
        have hv : v = e2 := by
          unfold alistGet at hget
          rw [List.find?_cons_of_pos l (by simp)] at hget
          simpa using hget.symm
        subst hv
        have herase : alistErase ((e1, v) :: l) e1 = l := by
          unfold alistErase
          rw [List.filter_cons_of_neg (by simp), List.filter_eq_self.mpr]
          intro a ha
          simp only [decide_eq_true_eq]
          intro hfst
          exact hnd.1 (List.mem_map.mpr ⟨a, ha, hfst⟩)
        rw [herase]
      · have hget' : alistGet l k = some v := by
          unfold alistGet at hget ⊢
          rw [List.find?_cons_of_neg l (by simp [hek])] at hget
          exact hget
        have herase : alistErase ((e1, e2) :: l) k = (e1, e2) :: alistErase l k := by
          unfold alistErase
          rw [List.filter_cons_of_pos (by simp [hek])]
        rw [herase]
        exact ((ih hnd.2 hget').cons (e1, e2)).trans
          (List.Perm.swap (k, v) (e1, e2) (alistErase l k))

theorem chainStep1_keeps_empty (three : Bool) (run0 run1 run2 : List Anomaly)
    (years : List ℚ) (ps : List PairMatch)
    (st : List AnomalyMatch × List (ℕ × ℕ × SimilarityBreakdown)) (h : st.2 = []) :
    (ps.foldl (chainStep1 three run0 run1 run2 years) st).2 = [] := by
  refine foldl_preserve (fun s => s.2 = []) _ _ ?_ st h
  intro s p _ hs
  unfold chainStep1
  dsimp only
  rw [hs]
  rfl

theorem chainStep2_keeps_empty (three : Bool) (run1 run2 : List Anomaly)
    (years : List ℚ) (idxs : List ℕ)
    (st : List AnomalyMatch × List (ℕ × ℕ × SimilarityBreakdown)) (h : st.2 = []) :
    (idxs.foldl (chainStep2 three run1 run2 years) st).2 = [] := by
  refine foldl_preserve (fun s => s.2 = []) _ _ ?_ st h
  intro s i _ hs
  unfold chainStep2
  dsimp only
  rw [hs]
  rfl

theorem chainStep1_step (three : Bool) (run0 run1 run2 : List Anomaly)
    (years : List ℚ) (st : List AnomalyMatch × List (ℕ × ℕ × SimilarityBreakdown))
    (p : PairMatch) (hnd : (st.2.map Prod.fst).Nodup) :
    (((chainStep1 three run0 run1 run2 years st p).2.map Prod.fst).Nodup) ∧
      (↑(((chainStep1 three run0 run1 run2 years st p).1.map
            (fun c => c.anomalies)).flatten) : Multiset Anomaly) +
        ↑((chainStep1 three run0 run1 run2 years st p).2.map
            (fun e => run2.getD e.2.1 default)) =
        ↑((st.1.map (fun c => c.anomalies)).flatten) +
          ↑(st.2.map (fun e => run2.getD e.2.1 default)) +
          ↑([run0.getD p.run1Idx default, run1.getD p.run2Idx default]) := by
  unfold chainStep1
  dsimp only
  cases halist : alistGet st.2 p.run2Idx with
  | none =>
      dsimp only
      refine ⟨hnd, ?_⟩
      simp only [List.map_append, List.map_cons, List.map_nil, List.flatten_append,
        List.flatten_cons, List.flatten_nil, List.append_nil, buildMatchObject_anomalies,
        ← Multiset.coe_add]
      abel
  | some v =>
      dsimp only
      by_cases h3 : three = true
      · rw [if_pos h3]
        refine ⟨alistErase_keys_nodup st.2 p.run2Idx hnd, ?_⟩
        have hperm : ↑(st.2.map (fun e => run2.getD e.2.1 default)) =
            (↑((((p.run2Idx, v) :: alistErase st.2 p.run2Idx)).map
              (fun e => run2.getD e.2.1 default)) : Multiset Anomaly) :=
          Multiset.coe_eq_coe.mpr
            ((alistGet_erase_perm st.2 p.run2Idx v hnd halist).map _)
        rw [hperm]
        simp only [List.map_append, List.map_cons, List.map_nil, List.flatten_append,
          List.flatten_cons, List.flatten_nil, List.append_nil,
          buildMatchObject_anomalies, ← Multiset.coe_add, ← Multiset.cons_coe,
          ← Multiset.singleton_add, Multiset.coe_nil]
        abel
      · rw [if_neg h3]
        refine ⟨hnd, ?_⟩
        simp only [List.map_append, List.map_cons, List.map_nil, List.flatten_append,
          List.flatten_cons, List.flatten_nil, List.append_nil,
          buildMatchObject_anomalies, ← Multiset.coe_add]
        abel

theorem chainStep2_step (three : Bool) (run1 run2 : List Anomaly)
    (years : List ℚ) (st : List AnomalyMatch × List (ℕ × ℕ × SimilarityBreakdown))
    (i : ℕ) (hnd : (st.2.map Prod.fst).Nodup) :
    (((chainStep2 three run1 run2 years st i).2.map Prod.fst).Nodup) ∧
      (↑(((chainStep2 three run1 run2 years st i).1.map
            (fun c => c.anomalies)).flatten) : Multiset Anomaly) +
        ↑((chainStep2 three run1 run2 years st i).2.map
            (fun e => run2.getD e.2.1 default)) =
        ↑((st.1.map (fun c => c.anomalies)).flatten) +
          ↑(st.2.map (fun e => run2.getD e.2.1 default)) +
          ↑([run1.getD i default]) := by
  unfold chainStep2
  dsimp only
  cases halist : alistGet st.2 i with
  | none =>
      dsimp only
      refine ⟨hnd, ?_⟩
      simp only [List.map_append, List.map_cons, List.map_nil, List.flatten_append,
        List.flatten_cons, List.flatten_nil, List.append_nil, buildMatchObject_anomalies,
        ← Multiset.coe_add]
      abel
  | some v =>
      dsimp only
      by_cases h3 : three = true
      · rw [if_pos h3]
        refine ⟨alistErase_keys_nodup st.2 i hnd, ?_⟩
        have hperm : ↑(st.2.map (fun e => run2.getD e.2.1 default)) =
            (↑((((i, v) :: alistErase st.2 i)).map
              (fun e => run2.getD e.2.1 default)) : Multiset Anomaly) :=
          Multiset.coe_eq_coe.mpr
            ((alistGet_erase_perm st.2 i v hnd halist).map _)
        rw [hperm]
        simp only [List.map_append, List.map_cons, List.map_nil, List.flatten_append,
          List.flatten_cons, List.flatten_nil, List.append_nil,
          buildMatchObject_anomalies, ← Multiset.coe_add, ← Multiset.cons_coe,
          ← Multiset.singleton_add, Multiset.coe_nil]
        abel
      · rw [if_neg h3]
        refine ⟨hnd, ?_⟩
        simp only [List.map_append, List.map_cons, List.map_nil, List.flatten_append,
          List.flatten_cons, List.flatten_nil, List.append_nil,
          buildMatchObject_anomalies, ← Multiset.coe_add]
        abel

theorem chainStep1_fold (three : Bool) (run0 run1 run2 : List Anomaly)
    (years : List ℚ) (ps : List PairMatch) :
    ∀ st : List AnomalyMatch × List (ℕ × ℕ × SimilarityBreakdown),
      (st.2.map Prod.fst).Nodup →
      (((ps.foldl (chainStep1 three run0 run1 run2 years) st).2.map Prod.fst).Nodup ∧
        (↑(((ps.foldl (chainStep1 three run0 run1 run2 years) st).1.map
              (fun c => c.anomalies)).flatten) : Multiset Anomaly) +
          ↑((ps.foldl (chainStep1 three run0 run1 run2 years) st).2.map
              (fun e => run2.getD e.2.1 default)) =
          ↑((st.1.map (fun c => c.anomalies)).flatten) +
            ↑(st.2.map (fun e => run2.getD e.2.1 default)) +
            ↑(ps.map (fun p => run0.getD p.run1Idx default)) +
            ↑(ps.map (fun p => run1.getD p.run2Idx default))) := by
  induction ps with
  | nil =>
      intro st h
      exact ⟨h, by simp⟩
  | cons p ps ih =>
      intro st hnd
      rw [List.foldl_cons]
      obtain ⟨hnd', heq'⟩ := chainStep1_step three run0 run1 run2 years st p hnd
      obtain ⟨hndF, heqF⟩ := ih (chainStep1 three run0 run1 run2 years st p) hnd'
      refine ⟨hndF, ?_⟩
      rw [heqF, heq']
      simp only [List.map_cons, ← Multiset.cons_coe, ← Multiset.singleton_add,
        Multiset.coe_nil]
      abel

theorem chainStep2_fold (three : Bool) (run1 run2 : List Anomaly)
    (years : List ℚ) (idxs : List ℕ) :
    ∀ st : List AnomalyMatch × List (ℕ × ℕ × SimilarityBreakdown),
      (st.2.map Prod.fst).Nodup →
      (((idxs.foldl (chainStep2 three run1 run2 years) st).2.map Prod.fst).Nodup ∧
        (↑(((idxs.foldl (chainStep2 three run1 run2 years) st).1.map
              (fun c => c.anomalies)).flatten) : Multiset Anomaly) +
          ↑((idxs.foldl (chainStep2 three run1 run2 years) st).2.map
              (fun e => run2.getD e.2.1 default)) =
          ↑((st.1.map (fun c => c.anomalies)).flatten) +
            ↑(st.2.map (fun e => run2.getD e.2.1 default)) +
            ↑(idxs.map (fun i => run1.getD i default))) := by
  induction idxs with
  | nil =>
      intro st h
      exact ⟨h, by simp⟩
  | cons i idxs ih =>
      intro st hnd
      rw [List.foldl_cons]
      obtain ⟨hnd', heq'⟩ := chainStep2_step three run1 run2 years st i hnd
      obtain ⟨hndF, heqF⟩ := ih (chainStep2 three run1 run2 years st i) hnd'
      refine ⟨hndF, ?_⟩
      rw [heqF, heq']
      simp only [List.map_cons, ← Multiset.cons_coe, ← Multiset.singleton_add,
        Multiset.coe_singleton]
      abel

theorem bmo_map_flatten {α : Type} (l : List α) (g : α → Anomaly) (ri : List ℕ)
    (conf : ℝ) (s : MatchStatus) (sim : SimilarityBreakdown) (y : List ℚ) :
    ((l.map (fun x => buildMatchObject [g x] ri conf s sim y)).map
      (fun ch => ch.anomalies)).flatten = l.map g := by
  rw [List.map_map]
  exact flatten_map_singleton l g

theorem partition_assemble {α : Type} (F2c L M N m p0 p1 n1 af bf cf : Multiset α)
    (htot : F2c + L = m + p0 + p1 + n1)
    (h1 : p0 + M = af) (h2 : p1 + n1 = bf) (h3 : m + N = cf) :
    F2c + M + L + N = af + (bf + cf) := by
  calc F2c + M + L + N = (F2c + L) + M + N := by abel
    _ = (m + p0 + p1 + n1) + M + N := by rw [htot]
    _ = (p0 + M) + ((p1 + n1) + (m + N)) := by abel
    _ = af + (bf + cf) := by rw [h1, h2, h3]

set_option maxHeartbeats 1600000 in
/-- **C1** (amended): for every input of at least two runs, the chains
emitted by the cross-run matcher partition the non-reference anomalies of
the first three runs: the multiset of anomalies over all chains equals
the multiset of non-reference anomalies of `runs.take 3`.  Reference
points appear in no chain, and anomalies of runs with index ≥ 3 appear in
no chain. -/
theorem matchAcrossRuns_partition (runs : List (List Anomaly)) (years : List ℚ)
    (h2 : 2 ≤ runs.length) :
    (↑(((matchAcrossRuns runs years).map (fun c => c.anomalies)).flatten) :
        Multiset Anomaly) =
      ↑(((runs.take 3).map
        (fun run => run.filter (fun a => !a.is_reference_point))).flatten) := by
  rcases runs with _ | ⟨a, runs⟩
  · simp at h2
  rcases runs with _ | ⟨b, runs⟩
  · simp at h2
  rcases runs with _ | ⟨c, runs⟩
  · -- exactly two runs
    unfold matchAcrossRuns
    rw [if_neg (by norm_num : ¬ ([a, b] : List (List Anomaly)).length < 2)]
    dsimp only
    rw [if_neg (by norm_num : ¬ (3 ≤ ([a, b] : List (List Anomaly)).length))]
    dsimp only
    rw [show ([a, b] : List (List Anomaly)).getD 0 [] = a from rfl,
      show ([a, b] : List (List Anomaly)).getD 1 [] = b from rfl,
      show ([a, b] : List (List Anomaly)).getD 2 [] = [] from rfl]
    obtain ⟨hnd1, heq1⟩ := chainStep1_fold
      (decide (2 < ([a, b] : List (List Anomaly)).length)) a b [] years
      (matchAnomalies a b).pairs ([], []) (by simp)
    obtain ⟨hnd2, heq2⟩ := chainStep2_fold
      (decide (2 < ([a, b] : List (List Anomaly)).length)) b [] years
      (matchAnomalies a b).newAnomalies _ hnd1
    have hem2 : ((matchAnomalies a b).newAnomalies.foldl
        (chainStep2 (decide (2 < ([a, b] : List (List Anomaly)).length)) b [] years)
        ((matchAnomalies a b).pairs.foldl
          (chainStep1 (decide (2 < ([a, b] : List (List Anomaly)).length)) a b [] years)
          ([], []))).2 = [] :=
      chainStep2_keeps_empty _ _ _ _ _ _
        (chainStep1_keeps_empty _ _ _ _ _ _ _ rfl)
    have htot := heq2
    rw [heq1, hem2] at htot
    simp only [List.map_nil, List.flatten_nil, Multiset.coe_nil, zero_add,
      add_zero] at htot
    rw [show (List.take 3 [a, b] : List (List Anomaly)) = [a, b] from rfl]
    simp only [List.map_append, List.flatten_append, List.map_cons, List.map_nil,
      List.flatten_cons, List.flatten_nil, List.append_nil, ← Multiset.coe_add,
      bmo_map_flatten]
    rw [htot, ← matchAnomalies_run1_values a b, ← matchAnomalies_run2_values a b]
    abel
  · -- three runs or more
    unfold matchAcrossRuns
    rw [if_neg (by simp only [List.length_cons]; omega :
      ¬ (a :: b :: c :: runs : List (List Anomaly)).length < 2)]
    dsimp only
    rw [if_pos (by simp only [List.length_cons]; omega :
      3 ≤ (a :: b :: c :: runs : List (List Anomaly)).length)]
    dsimp only
    have h32 : 2 < (a :: b :: c :: runs : List (List Anomaly)).length := by
      simp only [List.length_cons]
      omega
    rw [if_pos h32, if_pos h32]
    rw [show (a :: b :: c :: runs : List (List Anomaly)).getD 0 [] = a from rfl,
      show (a :: b :: c :: runs : List (List Anomaly)).getD 1 [] = b from rfl,
      show (a :: b :: c :: runs : List (List Anomaly)).getD 2 [] = c from rfl]
    rw [foldl_alistSet_fresh (fun p : PairMatch => p.run1Idx)
      (fun p : PairMatch => (p.run2Idx, p.similarity)) (matchAnomalies b c).pairs []
      (matchAnomalies_pairs_run1Idx_nodup b c) (by simp)]
    simp only [List.nil_append]
    have hndmap0 : (((matchAnomalies b c).pairs.map
        (fun p => (p.run1Idx, p.run2Idx, p.similarity))).map Prod.fst).Nodup := by
      rw [List.map_map]
      exact matchAnomalies_pairs_run1Idx_nodup b c
    obtain ⟨hnd1, heq1⟩ := chainStep1_fold
      (decide (2 < (a :: b :: c :: runs : List (List Anomaly)).length)) a b c years
      (matchAnomalies a b).pairs
      ([], (matchAnomalies b c).pairs.map (fun p => (p.run1Idx, p.run2Idx, p.similarity)))
      hndmap0
    obtain ⟨hnd2, heq2⟩ := chainStep2_fold
      (decide (2 < (a :: b :: c :: runs : List (List Anomaly)).length)) b c years
      (matchAnomalies a b).newAnomalies _ hnd1
    have hmap0vals : ((matchAnomalies b c).pairs.map
        (fun p => (p.run1Idx, p.run2Idx, p.similarity))).map
          (fun e => c.getD e.2.1 default) =
        (matchAnomalies b c).pairs.map (fun p => c.getD p.run2Idx default) := by
      rw [List.map_map]
      rfl
    have htot := heq2
    rw [heq1] at htot
    rw [hmap0vals] at htot
    simp only [List.map_nil, List.flatten_nil, Multiset.coe_nil, zero_add] at htot
    rw [show (List.take 3 (a :: b :: c :: runs) : List (List Anomaly)) = [a, b, c]
      from rfl]
    simp only [List.map_append, List.flatten_append, List.map_cons, List.map_nil,
      List.flatten_cons, List.flatten_nil, List.append_nil, ← Multiset.coe_add,
      bmo_map_flatten]
    exact partition_assemble _ _ _ _ _ _ _ _ _ _ _ htot
      (matchAnomalies_run1_values a b) (matchAnomalies_run2_values a b)
      (matchAnomalies_run2_values b c)

/-- Claim C1 counterexample: an anomaly can appear in zero chains — on
the two-run input `[[gwAnomaly], []]` the matcher emits no chain at all,
although the girth-weld reference anomaly is present in run 0. -/
theorem reference_point_no_chain_counterexample :
    matchAcrossRuns [[gwAnomaly], []] [2010, 2015] = [] ∧
    gwAnomaly ∈ ([[gwAnomaly], []] : List (List Anomaly)).getD 0 [] := by
  constructor
  · norm_num [matchAcrossRuns, matchAnomalies, matchCandidates, matchAssignment,
      extractStep, nonRefEnum, buildCostMatrix, hungarianAlgorithm, alistGet,
      alistSet, gwAnomaly, baseAnomaly, List.getD, List.flatMap, List.flatten,
      List.range_succ, List.filterMap]
  · simp

/-- Witness for the amended partition claim: at the two-run input
`[[baseAnomaly], []]` the run-count hypothesis holds and the chains'
anomalies are exactly the non-reference anomalies of the runs. -/
theorem matchAcrossRuns_partition_witness :
    2 ≤ ([[baseAnomaly], []] : List (List Anomaly)).length ∧
    (↑(((matchAcrossRuns [[baseAnomaly], []] [2010, 2015]).map
        (fun c => c.anomalies)).flatten) : Multiset Anomaly) =
      ↑(((([[baseAnomaly], []] : List (List Anomaly)).take 3).map
        (fun run => run.filter (fun a => !a.is_reference_point))).flatten) :=
  ⟨by norm_num,
    matchAcrossRuns_partition [[baseAnomaly], []] [2010, 2015] (by norm_num)⟩

end ILI
